import Mathlib

/-!
Verification of the FinancaFacil transaction-aggregation core.

This file is a shallow embedding of the analytics/aggregation layer of the
repository (`server/storage.ts`, the `getBudgetStatus` helper of the Budget
page and the `getGoalStatus` helper of `pages/Goals.tsx`), together with the
ownership-guarded CRUD operations of `FirestoreStorage`.

Modelling conventions:
* JavaScript numbers are idealised as exact rationals (`ℚ`).  The places
  where IEEE special values matter (division by zero in the progress
  evaluators) are modelled explicitly with `JsNumber`, which adds `posInf`,
  `negInf` and `nan` to the rationals and gives division, multiplication by
  a constant and comparison their ECMAScript semantics.
* Calendar dates are modelled as integer day serials (days since
  0000-01-01 in the proleptic Gregorian calendar).  `Transaction.date` and
  the query bounds are such serials; this matches the repository design
  note that transaction and budget dates are calendar dates without
  time-of-day.  The JavaScript `new Date(year, monthIndex, day)`
  constructor, including its month/day overflow normalisation (used by
  `getMonthlyBalance` as `new Date(year, jsMonth + 1, 0)` to obtain the
  last day of a month), is modelled by `jsDateSerial`.
* Instants (`SavingsGoal.targetDate`, `today`) are integer milliseconds
  since an arbitrary epoch, as produced by `Date.getTime()`.
* The Firestore document store is modelled by lists of records; a
  `.where("userId", "==", u)` clause is a filter, a `.doc(id).get()` is
  `List.find?` on the id field, and a JS `Map` is an association list that
  preserves insertion order, as JS `Map` does.
* The `try`/`catch` wrappers in `storage.ts` only convert storage-transport
  failures into `undefined`/`false`; the pure model has no transport, so
  the functions whose TypeScript type is `Promise<T | undefined>` return
  `Option` values that are always `some` (the `catch` branch is
  unreachable in the model).
-/

/-! ## ECMAScript number semantics for the division edge cases -/

/-- A JavaScript number: a finite value (idealised as an exact rational),
one of the two infinities, or `NaN`. -/
inductive JsNumber where
  | num (q : ℚ)
  | posInf
  | negInf
  | nan
deriving DecidableEq

/-- ECMAScript division of two finite numbers: `a / 0` is `+∞`, `-∞` or
`NaN` according to the sign of `a`; otherwise the exact quotient. -/
def jsDivNum (a b : ℚ) : JsNumber :=
  if b = 0 then
    if 0 < a then .posInf else if a < 0 then .negInf else .nan
  else .num (a / b)

/-- ECMAScript multiplication of a number by a finite constant. -/
def jsMulConst (x : JsNumber) (c : ℚ) : JsNumber :=
  match x with
  | .num q => .num (q * c)
  | .posInf => if 0 < c then .posInf else if c < 0 then .negInf else .nan
  | .negInf => if 0 < c then .negInf else if c < 0 then .posInf else .nan
  | .nan => .nan

/-- ECMAScript `x >= c` for a finite constant `c`: comparisons with `NaN`
are false. -/
def jsGe (x : JsNumber) (c : ℚ) : Bool :=
  match x with
  | .num q => decide (c ≤ q)
  | .posInf => true
  | .negInf => false
  | .nan => false

/-- Computable ceiling of a rational, modelling `Math.ceil` on a finite
value (the only case the embedded code reaches). -/
def ceilQ (q : ℚ) : Int := -((-q.num) / (q.den : Int))

theorem ceilQ_eq_ceil (q : ℚ) : ceilQ q = ⌈q⌉ := by
  have h1 : ⌊-q⌋ = -⌈q⌉ := Int.floor_neg
  have h2 : ⌊-q⌋ = (-q).num / ((-q).den : Int) := Rat.floor_def
  rw [Rat.num_neg_eq_neg_num, Rat.den_neg_eq_den] at h2
  unfold ceilQ
  omega

/-! ## Calendar model and the JavaScript date constructor -/

/-- Gregorian leap-year rule. -/
def isLeap (y : Nat) : Bool := (y % 4 == 0 && y % 100 != 0) || (y % 400 == 0)

/-- Number of days of month `m` (1-indexed) of year `y`; `0` for an
out-of-range month index. -/
def daysInMonth (y : Nat) : Nat → Nat
  | 1 => 31
  | 2 => if isLeap y then 29 else 28
  | 3 => 31
  | 4 => 30
  | 5 => 31
  | 6 => 30
  | 7 => 31
  | 8 => 31
  | 9 => 30
  | 10 => 31
  | 11 => 30
  | 12 => 31
  | _ => 0

/-- Days of year `y` that precede the first day of month `m` (1-indexed). -/
def daysBeforeMonth (y : Nat) : Nat → Nat
  | 0 => 0
  | 1 => 0
  | m + 2 => daysBeforeMonth y (m + 1) + daysInMonth y (m + 1)

/-- Number of leap years among `0, 1, …, y - 1` (year 0 is a leap year). -/
def leapsBefore (y : Nat) : Nat := (y + 3) / 4 - (y + 99) / 100 + (y + 399) / 400

/-- Days in the years `0, 1, …, y - 1`. -/
def daysBeforeYear (y : Nat) : Nat := 365 * y + leapsBefore y

/-- Day serial of the calendar date `y-m-d` (month and day 1-indexed):
days since 0000-01-01. -/
def serialOfDate (y m d : Nat) : Int :=
  (daysBeforeYear y : Int) + (daysBeforeMonth y m : Int) + (d : Int) - 1

/-- Day serial produced by the JavaScript constructor
`new Date(y, m0, d)` with a 0-indexed month `m0` (possibly `≥ 12`) and an
arbitrary integer day `d` (possibly `0` or negative): ECMAScript `MakeDay`
normalises the month into the year and counts `d - 1` days from the first
of the normalised month. -/
def jsDateSerial (y m0 : Nat) (d : Int) : Int :=
  serialOfDate (y + m0 / 12) (m0 % 12 + 1) 1 + (d - 1)

theorem isLeap_iff (y : Nat) :
    isLeap y = true ↔ ((y % 4 = 0 ∧ ¬ y % 100 = 0) ∨ y % 400 = 0) := by
  simp [isLeap]

theorem daysBeforeYear_succ (y : Nat) :
    daysBeforeYear (y + 1) = daysBeforeYear y + (if isLeap y then 366 else 365) := by
  have h := isLeap_iff y
  by_cases hL : isLeap y
  · rw [if_pos hL]
    have := h.mp hL
    simp only [daysBeforeYear, leapsBefore]
    omega
  · rw [if_neg hL]
    have : ¬ ((y % 4 = 0 ∧ ¬ y % 100 = 0) ∨ y % 400 = 0) := fun hc => hL (h.mpr hc)
    simp only [daysBeforeYear, leapsBefore]
    omega

/-- The window computed by `getMonthlyBalance` —
`startDate = new Date(year, month - 1, 1)` and
`endDate = new Date(year, month, 0)` — is exactly the calendar month: the
start is the first day and the end the true last calendar day
`daysInMonth`. -/
theorem jsMonthWindow (y month : Nat) (h1 : 1 ≤ month) (h2 : month ≤ 12) :
    jsDateSerial y (month - 1) 1 = serialOfDate y month 1 ∧
    jsDateSerial y month 0 = serialOfDate y month (daysInMonth y month) := by
  have hsucc := daysBeforeYear_succ y
  interval_cases month <;>
    constructor <;>
    · by_cases hL : isLeap y <;>
        simp [jsDateSerial, serialOfDate, daysBeforeMonth, daysInMonth, hL] at hsucc ⊢ <;>
        omega

/-! ## Data model (shared/schema.ts) -/

/-- `type: 'income' | 'expense'` of the zod schemas. -/
inductive TxType where
  | income
  | expense
deriving DecidableEq

/-- The string stored in the `type` field. -/
def typeStr : TxType → String
  | .income => "income"
  | .expense => "expense"

/-- `period: 'monthly' | 'weekly' | 'yearly'` of budgets. -/
inductive Period where
  | monthly
  | weekly
  | yearly
deriving DecidableEq

structure Category where
  id : String
  userId : String
  name : String
  icon : String
  color : String
  type : TxType
  createdAt : Int
deriving DecidableEq

/-- A transaction document.  `categoryId` is `none` for JS `null`; note
that `some ""` is a possible (falsy but non-null) value. `date` is a
calendar-day serial, `createdAt` an instant. -/
structure Transaction where
  id : String
  userId : String
  categoryId : Option String
  description : String
  amount : ℚ
  type : TxType
  paymentMethod : Option String
  date : Int
  createdAt : Int
deriving DecidableEq

structure Budget where
  id : String
  userId : String
  categoryId : Option String
  name : String
  amount : ℚ
  period : Period
  startDate : Int
  endDate : Option Int
  createdAt : Int
deriving DecidableEq

structure SavingsGoal where
  id : String
  userId : String
  name : String
  targetAmount : ℚ
  currentAmount : ℚ
  icon : String
  color : String
  targetDate : Option Int
  completed : Bool
  createdAt : Int
deriving DecidableEq

/-- The Firestore database: one collection per entity.  User-profile
documents are not modelled; no claim concerns them. -/
structure Store where
  categories : List Category
  transactions : List Transaction
  budgets : List Budget
  savingsGoals : List SavingsGoal
deriving DecidableEq

/-- JS truthiness test for a `string | null | undefined` value: `null`,
`undefined` and `""` are falsy. -/
def jsStrFalsy : Option String → Bool
  | none => true
  | some s => s == ""

/-- Models `transaction.categoryId || null`. -/
def jsOrNull (c : Option String) : Option String :=
  if jsStrFalsy c then none else c

/-! ## Storage operations (server/storage.ts) -/

/-- `TransactionWithCategory` of the schema: a transaction joined with the
category document its `categoryId` points at, when one exists. -/
structure TransactionWithCategory where
  tx : Transaction
  category : Option Category
deriving DecidableEq

structure BudgetWithCategory where
  budget : Budget
  category : Option Category
deriving DecidableEq

/-- The per-row category join of `getTransactions`,
`getTransactionsByDateRange` and `getBudgets`:
`if (row.categoryId) { adminDb.collection(CATEGORIES).doc(row.categoryId).get() }`.
The lookup is by document id only — it is not filtered by `userId`. -/
def joinCategory (s : Store) (cid : Option String) : Option Category :=
  match jsOrNull cid with
  | some c => s.categories.find? (fun cat => cat.id == c)
  | none => none

def sortTxByDateDesc (l : List Transaction) : List Transaction :=
  l.mergeSort (fun a b => decide (b.date ≤ a.date))

def sortCategoriesByCreatedDesc (l : List Category) : List Category :=
  l.mergeSort (fun a b => decide (b.createdAt ≤ a.createdAt))

def sortBudgetsByCreatedDesc (l : List Budget) : List Budget :=
  l.mergeSort (fun a b => decide (b.createdAt ≤ a.createdAt))

def sortGoalsByCreatedDesc (l : List SavingsGoal) : List SavingsGoal :=
  l.mergeSort (fun a b => decide (b.createdAt ≤ a.createdAt))

/-- `getCategories`: `where("userId", "==", userId).orderBy("createdAt", "desc")`. -/
def getCategories (s : Store) (u : String) : List Category :=
  sortCategoriesByCreatedDesc (s.categories.filter (fun c => c.userId == u))

/-- `getTransactions(userId, limit?)`: owner filter, newest first, an
optional limit (`if (limit)` — a limit of `0` is falsy and ignored), then
the per-row category join. -/
def getTransactions (s : Store) (u : String) (limit : Option Nat) :
    List TransactionWithCategory :=
  let base := sortTxByDateDesc (s.transactions.filter (fun t => t.userId == u))
  let limited := match limit with
    | some n => if n == 0 then base else base.take n
    | none => base
  limited.map (fun t => ⟨t, joinCategory s t.categoryId⟩)

/-- The predicate of the range query
`where("userId","==",u).where("date",">=",a).where("date","<=",b)`. -/
def txInRange (u : String) (a b : Int) (t : Transaction) : Bool :=
  t.userId == u && decide (a ≤ t.date) && decide (t.date ≤ b)

def rangeTxs (s : Store) (u : String) (a b : Int) : List Transaction :=
  s.transactions.filter (txInRange u a b)

/-- `getTransactionsByDateRange`: the range query ordered newest first,
then the per-row category join. -/
def getTransactionsByDateRange (s : Store) (u : String) (a b : Int) :
    List TransactionWithCategory :=
  (sortTxByDateDesc (rangeTxs s u a b)).map (fun t => ⟨t, joinCategory s t.categoryId⟩)

/-- `getBudgets`: owner filter, newest first, category join. -/
def getBudgets (s : Store) (u : String) : List BudgetWithCategory :=
  (sortBudgetsByCreatedDesc (s.budgets.filter (fun b => b.userId == u))).map
    (fun b => ⟨b, joinCategory s b.categoryId⟩)

/-- `getSavingsGoals`: owner filter, newest first. -/
def getSavingsGoals (s : Store) (u : String) : List SavingsGoal :=
  sortGoalsByCreatedDesc (s.savingsGoals.filter (fun g => g.userId == u))

/-! ### Guarded updates and deletes

Each update/delete first fetches the document by id and fails
(`undefined` / `false`) unless it exists and its stored `userId` equals
the caller: `if (!docSnap.exists || docSnap.data()?.userId !== userId)`.
The update payloads are `Partial<Omit<Insert…, 'userId'>>` merged
field-by-field by Firestore `update()`; they are modelled by patch records
of optional fields (`userId` is never updatable). -/

structure CategoryPatch where
  name : Option String := none
  icon : Option String := none
  color : Option String := none
  type : Option TxType := none
deriving DecidableEq

def applyCategoryPatch (c : Category) (p : CategoryPatch) : Category :=
  { c with
    name := p.name.getD c.name
    icon := p.icon.getD c.icon
    color := p.color.getD c.color
    type := p.type.getD c.type }

def updateCategory (s : Store) (id u : String) (p : CategoryPatch) :
    Option Category × Store :=
  match s.categories.find? (fun c => c.id == id) with
  | none => (none, s)
  | some c =>
    if c.userId ≠ u then (none, s)
    else
      let c' := applyCategoryPatch c p
      (some c', { s with categories := s.categories.map (fun d => if d.id == id then c' else d) })

def deleteCategory (s : Store) (id u : String) : Bool × Store :=
  match s.categories.find? (fun c => c.id == id) with
  | none => (false, s)
  | some c =>
    if c.userId ≠ u then (false, s)
    else (true, { s with categories := s.categories.filter (fun d => !(d.id == id)) })

structure TransactionPatch where
  categoryId : Option (Option String) := none
  description : Option String := none
  amount : Option ℚ := none
  type : Option TxType := none
  paymentMethod : Option (Option String) := none
  date : Option Int := none
deriving DecidableEq

def applyTransactionPatch (t : Transaction) (p : TransactionPatch) : Transaction :=
  { t with
    categoryId := p.categoryId.getD t.categoryId
    description := p.description.getD t.description
    amount := p.amount.getD t.amount
    type := p.type.getD t.type
    paymentMethod := p.paymentMethod.getD t.paymentMethod
    date := p.date.getD t.date }

def updateTransaction (s : Store) (id u : String) (p : TransactionPatch) :
    Option Transaction × Store :=
  match s.transactions.find? (fun t => t.id == id) with
  | none => (none, s)
  | some t =>
    if t.userId ≠ u then (none, s)
    else
      let t' := applyTransactionPatch t p
      (some t', { s with transactions := s.transactions.map (fun d => if d.id == id then t' else d) })

def deleteTransaction (s : Store) (id u : String) : Bool × Store :=
  match s.transactions.find? (fun t => t.id == id) with
  | none => (false, s)
  | some t =>
    if t.userId ≠ u then (false, s)
    else (true, { s with transactions := s.transactions.filter (fun d => !(d.id == id)) })

structure BudgetPatch where
  categoryId : Option (Option String) := none
  name : Option String := none
  amount : Option ℚ := none
  period : Option Period := none
  startDate : Option Int := none
  endDate : Option (Option Int) := none
deriving DecidableEq

def applyBudgetPatch (b : Budget) (p : BudgetPatch) : Budget :=
  { b with
    categoryId := p.categoryId.getD b.categoryId
    name := p.name.getD b.name
    amount := p.amount.getD b.amount
    period := p.period.getD b.period
    startDate := p.startDate.getD b.startDate
    endDate := p.endDate.getD b.endDate }

def updateBudget (s : Store) (id u : String) (p : BudgetPatch) :
    Option Budget × Store :=
  match s.budgets.find? (fun b => b.id == id) with
  | none => (none, s)
  | some b =>
    if b.userId ≠ u then (none, s)
    else
      let b' := applyBudgetPatch b p
      (some b', { s with budgets := s.budgets.map (fun d => if d.id == id then b' else d) })

def deleteBudget (s : Store) (id u : String) : Bool × Store :=
  match s.budgets.find? (fun b => b.id == id) with
  | none => (false, s)
  | some b =>
    if b.userId ≠ u then (false, s)
    else (true, { s with budgets := s.budgets.filter (fun d => !(d.id == id)) })

structure SavingsGoalPatch where
  name : Option String := none
  targetAmount : Option ℚ := none
  currentAmount : Option ℚ := none
  icon : Option String := none
  color : Option String := none
  targetDate : Option (Option Int) := none
  completed : Option Bool := none
deriving DecidableEq

def applySavingsGoalPatch (g : SavingsGoal) (p : SavingsGoalPatch) : SavingsGoal :=
  { g with
    name := p.name.getD g.name
    targetAmount := p.targetAmount.getD g.targetAmount
    currentAmount := p.currentAmount.getD g.currentAmount
    icon := p.icon.getD g.icon
    color := p.color.getD g.color
    targetDate := p.targetDate.getD g.targetDate
    completed := p.completed.getD g.completed }

def updateSavingsGoal (s : Store) (id u : String) (p : SavingsGoalPatch) :
    Option SavingsGoal × Store :=
  match s.savingsGoals.find? (fun g => g.id == id) with
  | none => (none, s)
  | some g =>
    if g.userId ≠ u then (none, s)
    else
      let g' := applySavingsGoalPatch g p
      (some g', { s with savingsGoals := s.savingsGoals.map (fun d => if d.id == id then g' else d) })

def deleteSavingsGoal (s : Store) (id u : String) : Bool × Store :=
  match s.savingsGoals.find? (fun g => g.id == id) with
  | none => (false, s)
  | some g =>
    if g.userId ≠ u then (false, s)
    else (true, { s with savingsGoals := s.savingsGoals.filter (fun d => !(d.id == id)) })

/-! ## Analytics operations (server/storage.ts) -/

/-- `startDate = new Date(year, jsMonth, 1)` with `jsMonth = month - 1`
(the `month` parameter is 1-indexed). -/
def monthStartSerial (year month : Nat) : Int := jsDateSerial year (month - 1) 1

/-- `endDate = new Date(year, jsMonth + 1, 0)` — day 0 of the next month,
i.e. the last day of the current month. -/
def monthEndSerial (year month : Nat) : Int := jsDateSerial year month 0

structure MonthlyBalance where
  income : ℚ
  expenses : ℚ
  balance : ℚ
deriving DecidableEq

/-- `getMonthlyBalance(userId, year, month)`: one pass over the range
query accumulating `income += amount` for income rows and
`expenses += amount` for expense rows, returning
`{ income, expenses, balance: income - expenses }`. -/
def getMonthlyBalance (s : Store) (u : String) (year month : Nat) :
    Option MonthlyBalance :=
  let startDate := monthStartSerial year month
  let endDate := monthEndSerial year month
  let txs := rangeTxs s u startDate endDate
  let acc := txs.foldl
    (fun (p : ℚ × ℚ) t =>
      if t.type == .income then (p.1 + t.amount, p.2)
      else if t.type == .expense then (p.1, p.2 + t.amount)
      else p)
    (0, 0)
  some ⟨acc.1, acc.2, acc.1 - acc.2⟩

/-- One row of the `getCategoryTotals` result. -/
structure CatTotal where
  total : ℚ
  type : TxType
  categoryName : String
  categoryId : Option String
deriving DecidableEq

/-- Models `transaction.categoryId || 'uncategorized'`. -/
def catKeyStr : Option String → String
  | none => "uncategorized"
  | some s => if s == "" then "uncategorized" else s

/-- The grouping key `` `${transaction.categoryId || 'uncategorized'}-${transaction.type}` ``. -/
def keyOf (t : Transaction) : String := catKeyStr t.categoryId ++ "-" ++ typeStr t.type

/-- The distinct referenced category ids pre-fetched by `getCategoryTotals`
(`if (transaction.categoryId) categoryIds.add(...)`; the JS `Set` is
modelled by deduplication). -/
def referencedCategoryIds (txs : List Transaction) : List String :=
  (txs.filterMap (fun t => jsOrNull t.categoryId)).dedup

/-- The `categoriesMap` batch lookup: each referenced id whose category
document exists gets an entry. -/
def buildCatMap (cats : List Category) : List String → List (String × Category)
  | [] => []
  | cid :: rest =>
    match cats.find? (fun c => c.id == cid) with
    | some c => (cid, c) :: buildCatMap cats rest
    | none => buildCatMap cats rest

def catMapGet (m : List (String × Category)) (k : String) : Option Category :=
  (m.find? (fun p => p.1 == k)).map (·.2)

/-- `const category = transaction.categoryId ? categoriesMap.get(transaction.categoryId) : undefined`. -/
def resolveCategory (catMap : List (String × Category)) (cid : Option String) :
    Option Category :=
  match jsOrNull cid with
  | some c => catMapGet catMap c
  | none => none

/-- `const categoryName = category ? category.name : (transaction.categoryId ? 'Unknown Category' : 'Uncategorized')`. -/
def resolveName (catMap : List (String × Category)) (cid : Option String) : String :=
  match resolveCategory catMap cid with
  | some cat => cat.name
  | none => if jsStrFalsy cid then "Uncategorized" else "Unknown Category"

def mapGetTotals (m : List (String × CatTotal)) (k : String) : Option CatTotal :=
  (m.find? (fun p => p.1 == k)).map (·.2)

/-- `existingTotal.total += transaction.amount`: in-place update of the
(unique) entry with the given key. -/
def bumpFirst (k : String) (amt : ℚ) : List (String × CatTotal) → List (String × CatTotal)
  | [] => []
  | p :: rest =>
    if p.1 == k then (p.1, { p.2 with total := p.2.total + amt }) :: rest
    else p :: bumpFirst k amt rest

/-- The body of the accumulation loop of `getCategoryTotals`: bump the
existing entry for the key, or insert a fresh one (JS `Map.set` appends
new keys in insertion order). -/
def addTx (catMap : List (String × Category)) (m : List (String × CatTotal))
    (t : Transaction) : List (String × CatTotal) :=
  let key := keyOf t
  match mapGetTotals m key with
  | some _ => bumpFirst key t.amount m
  | none =>
    m ++ [(key, ⟨t.amount, t.type, resolveName catMap t.categoryId, jsOrNull t.categoryId⟩)]

/-- The `categoryTotalsMap` built by `getCategoryTotals`. -/
def categoryTotalsMap (s : Store) (u : String) (a b : Int) :
    List (String × CatTotal) :=
  let txs := rangeTxs s u a b
  let catMap := buildCatMap s.categories (referencedCategoryIds txs)
  txs.foldl (addTx catMap) []

/-- `getCategoryTotals(userId, startDate, endDate)`: the values of
`categoryTotalsMap` in insertion order (`Array.from(map.values())`) —
note: no sorting is applied. -/
def getCategoryTotals (s : Store) (u : String) (a b : Int) :
    Option (List CatTotal) :=
  some ((categoryTotalsMap s u a b).map (·.2))

/-! ## Client progress evaluators -/

/-- Result of `getBudgetStatus` on the Budget page (`icon` holds the name
of the icon component). -/
structure BudgetStatus where
  status : String
  color : String
  icon : String
deriving DecidableEq

/-- `getBudgetStatus(spent, total)` of the Budget page:
`percentage = (spent / total) * 100`, then `>= 100` → over, `>= 80` →
warning, else good.  There is no guard for `total == 0`: the division is
always performed. -/
def getBudgetStatus (spent total : ℚ) : BudgetStatus :=
  let percentage := jsMulConst (jsDivNum spent total) 100
  if jsGe percentage 100 then ⟨"over", "red", "AlertTriangle"⟩
  else if jsGe percentage 80 then ⟨"warning", "orange", "AlertTriangle"⟩
  else ⟨"good", "green", "CheckCircle"⟩

/-- Result of `getGoalStatus` of `pages/Goals.tsx`. -/
structure GoalStatus where
  status : String
  color : String
  label : String
deriving DecidableEq

/-- `getGoalStatus(current, target, targetDate?)` of `pages/Goals.tsx`:
`progress = (current / target) * 100`; `>= 100` → completed (before any
date logic); otherwise, with `daysLeft = Math.ceil((deadline - today) /
(1000*3600*24))`, negative → overdue, `<= 30` → urgent, else active; no
target date → active.  `targetDate` and `today` are instants in
milliseconds (`Date.getTime()`); there is no guard for `target <= 0`. -/
def getGoalStatus (current target : ℚ) (targetDate : Option Int) (today : Int) :
    GoalStatus :=
  let progress := jsMulConst (jsDivNum current target) 100
  if jsGe progress 100 then ⟨"completed", "green", "Concluída"⟩
  else
    match targetDate with
    | some deadline =>
      let daysLeft := ceilQ (((deadline - today : Int) : ℚ) / (1000 * 3600 * 24))
      if daysLeft < 0 then ⟨"overdue", "red", "Atrasada"⟩
      else if daysLeft ≤ 30 then ⟨"urgent", "orange", "Urgente"⟩
      else ⟨"active", "blue", "Em andamento"⟩
    | none => ⟨"active", "blue", "Em andamento"⟩

/-! ## Properties of the grouping key -/

theorem String.data_inj {s t : String} (h : s.data = t.data) : s = t := by
  cases s
  cases t
  exact congrArg String.mk h

/-- Keys separate the two transaction types and the category component:
`k1 ++ "-" ++ typeStr t1 = k2 ++ "-" ++ typeStr t2` forces `k1 = k2` and
`t1 = t2` (the suffixes `-income` and `-expense` are not suffixes of one
another). -/
theorem key_append_inj (a b : String) (t1 t2 : TxType)
    (h : a ++ "-" ++ typeStr t1 = b ++ "-" ++ typeStr t2) : a = b ∧ t1 = t2 := by
  cases t1 <;> cases t2 <;> simp only [typeStr] at h
  · exact ⟨String.data_inj (List.append_cancel_right (List.append_cancel_right
      (by simpa only [String.data_append] using congrArg String.data h))), rfl⟩
  · exfalso
    have hd := congrArg (fun s => s.data.reverse) h
    simp only [String.data_append, List.reverse_append] at hd
    rw [show "income".data.reverse = ['e','m','o','c','n','i'] from rfl,
        show "expense".data.reverse = ['e','s','n','e','p','x','e'] from rfl] at hd
    simp at hd
  · exfalso
    have hd := congrArg (fun s => s.data.reverse) h
    simp only [String.data_append, List.reverse_append] at hd
    rw [show "income".data.reverse = ['e','m','o','c','n','i'] from rfl,
        show "expense".data.reverse = ['e','s','n','e','p','x','e'] from rfl] at hd
    simp at hd
  · exact ⟨String.data_inj (List.append_cancel_right (List.append_cancel_right
      (by simpa only [String.data_append] using congrArg String.data h))), rfl⟩

theorem catKeyStr_jsOrNull (c : Option String) : catKeyStr (jsOrNull c) = catKeyStr c := by
  rcases c with _ | s
  · rfl
  · by_cases hs : s = ""
    · simp [jsOrNull, jsStrFalsy, catKeyStr, hs]
    · simp [jsOrNull, jsStrFalsy, catKeyStr, hs]

theorem jsOrNull_idem (c : Option String) : jsOrNull (jsOrNull c) = jsOrNull c := by
  rcases c with _ | s
  · rfl
  · by_cases hs : s = "" <;> simp [jsOrNull, jsStrFalsy, hs]

theorem jsOrNull_ne_some_empty (c : Option String) : jsOrNull c ≠ some "" := by
  rcases c with _ | s
  · simp [jsOrNull, jsStrFalsy]
  · by_cases hs : s = "" <;> simp [jsOrNull, jsStrFalsy, hs]

theorem jsStrFalsy_jsOrNull (c : Option String) : jsStrFalsy (jsOrNull c) = jsStrFalsy c := by
  rcases c with _ | s
  · rfl
  · by_cases hs : s = "" <;> simp [jsOrNull, jsStrFalsy, hs]

/-- `catKeyStr c` is the sentinel exactly when `c` is falsy or is the
literal string `"uncategorized"` — the collision that merges the two
sentinel groups. -/
theorem catKeyStr_eq_sentinel_iff (c : Option String) :
    catKeyStr c = "uncategorized" ↔ (jsStrFalsy c = true ∨ c = some "uncategorized") := by
  rcases c with _ | s
  · simp [catKeyStr, jsStrFalsy]
  · by_cases hs : s = ""
    · simp [catKeyStr, jsStrFalsy, hs]
    · have hk : catKeyStr (some s) = s := by simp [catKeyStr, hs]
      rw [hk]
      constructor
      · intro h
        exact Or.inr (by rw [h])
      · rintro (h | h)
        · exact absurd (by simpa [jsStrFalsy] using h) hs
        · simpa using h

/-- For a non-falsy, non-sentinel string `x`, `catKeyStr c = x` pins `c`
down to `some x`. -/
theorem catKeyStr_eq_iff (c : Option String) (x : String) (hx1 : x ≠ "")
    (hx2 : x ≠ "uncategorized") : catKeyStr c = x ↔ c = some x := by
  rcases c with _ | s
  · simp only [catKeyStr]
    constructor
    · intro h
      exact absurd h.symm hx2
    · intro h
      exact absurd h (by simp)
  · by_cases hs : s = ""
    · subst hs
      have hk : catKeyStr (some "") = "uncategorized" := by simp [catKeyStr]
      rw [hk]
      constructor
      · intro h
        exact absurd h.symm hx2
      · intro h
        exact absurd (Option.some.inj h).symm hx1
    · have hk : catKeyStr (some s) = s := by simp [catKeyStr, hs]
      rw [hk]
      simp

theorem resolveName_jsOrNull (catMap : List (String × Category)) (c : Option String) :
    resolveName catMap (jsOrNull c) = resolveName catMap c := by
  unfold resolveName resolveCategory
  rw [jsOrNull_idem, jsStrFalsy_jsOrNull]

theorem resolveName_none (catMap : List (String × Category)) :
    resolveName catMap none = "Uncategorized" := rfl

/-- If a category id has no document, no `categoriesMap` built from any id
list resolves it. -/
theorem catMapGet_buildCatMap_none (cats : List Category) (ids : List String)
    (cid : String) (h : cats.find? (fun c => c.id == cid) = none) :
    catMapGet (buildCatMap cats ids) cid = none := by
  induction ids with
  | nil => rfl
  | cons x rest ih =>
    unfold buildCatMap
    cases hfx : cats.find? (fun c => c.id == x) with
    | none => exact ih
    | some c =>
      by_cases hxc : x = cid
      · rw [hxc] at hfx
        rw [hfx] at h
        exact absurd h (by simp)
      · have hxb : (x == cid) = false := by simpa using hxc
        unfold catMapGet at ih ⊢
        simp only [List.find?, hxb] at ih ⊢
        exact ih

/-- Name resolution of a dangling (non-falsy, no matching document)
category id. -/
theorem resolveName_dangling (cats : List Category) (ids : List String)
    (c : String) (hc : ¬ c = "")
    (h : cats.find? (fun cat => cat.id == c) = none) :
    resolveName (buildCatMap cats ids) (some c) = "Unknown Category" := by
  have h1 : jsOrNull (some c) = some c := by simp [jsOrNull, jsStrFalsy, hc]
  have h2 : resolveCategory (buildCatMap cats ids) (some c) = none := by
    unfold resolveCategory
    rw [h1]
    exact catMapGet_buildCatMap_none cats ids c h
  unfold resolveName
  rw [h2]
  simp [jsStrFalsy, hc]

/-! ## The accumulation invariant of `getCategoryTotals` -/

theorem mapGetTotals_eq_none_iff (m : List (String × CatTotal)) (k : String) :
    mapGetTotals m k = none ↔ ∀ p ∈ m, ¬ p.1 = k := by
  unfold mapGetTotals
  simp [List.find?_eq_none]

theorem mapGetTotals_some_mem (m : List (String × CatTotal)) (k : String)
    (e : CatTotal) (h : mapGetTotals m k = some e) : ∃ p ∈ m, p.1 = k ∧ p.2 = e := by
  unfold mapGetTotals at h
  cases hf : m.find? (fun p => p.1 == k) with
  | none => rw [hf] at h; exact absurd h (by simp)
  | some p =>
    rw [hf] at h
    refine ⟨p, List.mem_of_find?_eq_some hf, ?_, ?_⟩
    · simpa using List.find?_some hf
    · simpa using h

theorem bumpFirst_map_fst (k : String) (amt : ℚ) (m : List (String × CatTotal)) :
    (bumpFirst k amt m).map Prod.fst = m.map Prod.fst := by
  induction m with
  | nil => rfl
  | cons p rest ih =>
    unfold bumpFirst
    by_cases h : (p.1 == k) = true <;> simp [h, ih]

/-- With duplicate-free keys, the in-place bump is the pointwise map that
adds `amt` to the entry carrying key `k`. -/
theorem bumpFirst_eq_map (k : String) (amt : ℚ) (m : List (String × CatTotal))
    (hnd : (m.map Prod.fst).Nodup) :
    bumpFirst k amt m =
      m.map (fun p => if p.1 == k then (p.1, { p.2 with total := p.2.total + amt }) else p) := by
  induction m with
  | nil => rfl
  | cons p rest ih =>
    simp only [List.map_cons, List.nodup_cons] at hnd
    unfold bumpFirst
    by_cases h : (p.1 == k) = true
    · have hmap : ∀ q ∈ rest, (if q.1 == k then (q.1, { q.2 with total := q.2.total + amt }) else q) = q := by
        intro q hq
        have hne : ¬ (q.1 == k) = true := by
          intro hqk
          apply hnd.1
          have hqe : q.1 = k := by simpa using hqk
          have hpe : p.1 = k := by simpa using h
          rw [hpe, ← hqe]
          exact List.mem_map.mpr ⟨q, hq, rfl⟩
        rw [if_neg hne]
      have htail : List.map (fun q => if q.1 == k then (q.1, { q.2 with total := q.2.total + amt }) else q) rest = rest := by
        simpa using List.map_congr_left hmap
      rw [List.map_cons, htail, if_pos h, if_pos h]
    · rw [List.map_cons, if_neg h, if_neg h, ih hnd.2]

/-- Sum of the amounts of the processed transactions whose grouping key is `k`. -/
def sumKey (k : String) (txs : List Transaction) : ℚ :=
  ((txs.filter (fun t => keyOf t == k)).map (·.amount)).sum

theorem sumKey_append_single (k : String) (txs : List Transaction) (t : Transaction) :
    sumKey k (txs ++ [t]) = sumKey k txs + (if keyOf t == k then t.amount else 0) := by
  unfold sumKey
  rw [List.filter_append, List.map_append, List.sum_append]
  by_cases h : (keyOf t == k) = true <;> simp [List.filter, h]

/-- Invariant of the `categoryTotalsMap` accumulation loop after the
transactions `processed` have been folded into the map `m`. -/
structure TotalsInv (catMap : List (String × Category)) (processed : List Transaction)
    (m : List (String × CatTotal)) : Prop where
  key_eq : ∀ p ∈ m, p.1 = catKeyStr p.2.categoryId ++ "-" ++ typeStr p.2.type
  nodup : (m.map Prod.fst).Nodup
  name_eq : ∀ p ∈ m, p.2.categoryName = resolveName catMap p.2.categoryId
  cid_origin : ∀ p ∈ m, ∃ t ∈ processed, jsOrNull t.categoryId = p.2.categoryId ∧ keyOf t = p.1
  total_eq : ∀ p ∈ m, p.2.total = sumKey p.1 processed
  covers : ∀ t ∈ processed, ∃ p ∈ m, p.1 = keyOf t

theorem TotalsInv.base (catMap : List (String × Category)) : TotalsInv catMap [] [] := by
  constructor <;> simp

theorem TotalsInv.step (catMap : List (String × Category)) (processed : List Transaction)
    (m : List (String × CatTotal)) (t : Transaction) (h : TotalsInv catMap processed m) :
    TotalsInv catMap (processed ++ [t]) (addTx catMap m t) := by
  cases hget : mapGetTotals m (keyOf t) with
  | none =>
    have hrw : addTx catMap m t =
        m ++ [(keyOf t, ⟨t.amount, t.type, resolveName catMap t.categoryId, jsOrNull t.categoryId⟩)] := by
      simp only [addTx, hget]
    rw [hrw]
    have hnotin : ∀ p ∈ m, ¬ p.1 = keyOf t := (mapGetTotals_eq_none_iff m _).mp hget
    refine ⟨?_, ?_, ?_, ?_, ?_, ?_⟩
    · intro p hp
      rcases List.mem_append.mp hp with hm | hnew
      · exact h.key_eq p hm
      · simp only [List.mem_singleton] at hnew
        subst hnew
        simp only [keyOf]
        rw [catKeyStr_jsOrNull]
    · rw [List.map_append]
      simp only [List.map_cons, List.map_nil]
      rw [List.nodup_append]
      refine ⟨h.nodup, List.nodup_singleton _, ?_⟩
      intro a ha hb
      simp only [List.mem_singleton] at hb
      subst hb
      rcases List.mem_map.mp ha with ⟨p, hp, hfst⟩
      exact hnotin p hp hfst
    · intro p hp
      rcases List.mem_append.mp hp with hm | hnew
      · exact h.name_eq p hm
      · simp only [List.mem_singleton] at hnew
        subst hnew
        exact (resolveName_jsOrNull catMap t.categoryId).symm
    · intro p hp
      rcases List.mem_append.mp hp with hm | hnew
      · rcases h.cid_origin p hm with ⟨t', ht', hx1, hx2⟩
        exact ⟨t', List.mem_append.mpr (Or.inl ht'), hx1, hx2⟩
      · simp only [List.mem_singleton] at hnew
        subst hnew
        exact ⟨t, List.mem_append.mpr (Or.inr (by simp)), rfl, rfl⟩
    · intro p hp
      rcases List.mem_append.mp hp with hm | hnew
      · rw [sumKey_append_single]
        have hne : ¬ keyOf t = p.1 := fun hk => hnotin p hm hk.symm
        rw [if_neg (by simpa using hne), add_zero]
        exact h.total_eq p hm
      · simp only [List.mem_singleton] at hnew
        subst hnew
        rw [sumKey_append_single]
        have hzero : sumKey (keyOf t) processed = 0 := by
          unfold sumKey
          have hnil : processed.filter (fun t2 => keyOf t2 == keyOf t) = [] := by
            rw [List.filter_eq_nil_iff]
            intro t2 ht2
            rcases h.covers t2 ht2 with ⟨p, hp, hk⟩
            intro hbeq
            exact hnotin p hp (by
              rw [hk]
              exact (by simpa using hbeq : keyOf t2 = keyOf t))
          rw [hnil]
          rfl
        simp [hzero]
    · intro t2 ht2
      rcases List.mem_append.mp ht2 with hm | hnew
      · rcases h.covers t2 hm with ⟨p, hp, hk⟩
        exact ⟨p, List.mem_append.mpr (Or.inl hp), hk⟩
      · simp only [List.mem_singleton] at hnew
        rw [hnew]
        exact ⟨(keyOf t, ⟨t.amount, t.type, resolveName catMap t.categoryId, jsOrNull t.categoryId⟩),
          List.mem_append.mpr (Or.inr (by simp)), rfl⟩
  | some e =>
    have hrw : addTx catMap m t = bumpFirst (keyOf t) t.amount m := by
      simp only [addTx, hget]
    rw [hrw, bumpFirst_eq_map _ _ _ h.nodup]
    rcases mapGetTotals_some_mem m _ e hget with ⟨p₀, hp₀, hp₀k, _⟩
    refine ⟨?_, ?_, ?_, ?_, ?_, ?_⟩
    · intro p hp
      rcases List.mem_map.mp hp with ⟨q, hq, hfq⟩
      rw [← hfq]
      by_cases hcond : (q.1 == keyOf t) = true
      · rw [if_pos hcond]
        exact h.key_eq q hq
      · rw [if_neg hcond]
        exact h.key_eq q hq
    · have hkeys : (m.map (fun p => if p.1 == keyOf t then (p.1, { p.2 with total := p.2.total + t.amount }) else p)).map Prod.fst = m.map Prod.fst := by
        rw [List.map_map]
        refine List.map_congr_left ?_
        intro q _
        by_cases hcond : (q.1 == keyOf t) = true
        · rw [Function.comp_apply, if_pos hcond]
        · rw [Function.comp_apply, if_neg hcond]
      rw [hkeys]
      exact h.nodup
    · intro p hp
      rcases List.mem_map.mp hp with ⟨q, hq, hfq⟩
      rw [← hfq]
      by_cases hcond : (q.1 == keyOf t) = true
      · rw [if_pos hcond]
        exact h.name_eq q hq
      · rw [if_neg hcond]
        exact h.name_eq q hq
    · intro p hp
      rcases List.mem_map.mp hp with ⟨q, hq, hfq⟩
      rcases h.cid_origin q hq with ⟨t2, ht2, hx1, hx2⟩
      refine ⟨t2, List.mem_append.mpr (Or.inl ht2), ?_, ?_⟩
      · rw [← hfq]
        by_cases hcond : (q.1 == keyOf t) = true
        · rw [if_pos hcond]
          exact hx1
        · rw [if_neg hcond]
          exact hx1
      · rw [← hfq]
        by_cases hcond : (q.1 == keyOf t) = true
        · rw [if_pos hcond]
          exact hx2
        · rw [if_neg hcond]
          exact hx2
    · intro p hp
      rcases List.mem_map.mp hp with ⟨q, hq, hfq⟩
      rw [← hfq]
      by_cases hcond : (q.1 == keyOf t) = true
      · have hqk : q.1 = keyOf t := by simpa using hcond
        rw [if_pos hcond]
        show q.2.total + t.amount = sumKey q.1 (processed ++ [t])
        rw [sumKey_append_single, if_pos (by simpa using hqk.symm), h.total_eq q hq]
      · rw [if_neg hcond]
        show q.2.total = sumKey q.1 (processed ++ [t])
        rw [sumKey_append_single, if_neg (by
          intro hbeq
          exact hcond (by
            have : keyOf t = q.1 := by simpa using hbeq
            simp [this])), add_zero]
        exact h.total_eq q hq
    · intro t2 ht2
      rcases List.mem_append.mp ht2 with hm | hnew
      · rcases h.covers t2 hm with ⟨p, hp, hk⟩
        refine ⟨(if p.1 == keyOf t then (p.1, { p.2 with total := p.2.total + t.amount }) else p),
          List.mem_map.mpr ⟨p, hp, rfl⟩, ?_⟩
        by_cases hcond : (p.1 == keyOf t) = true
        · rw [if_pos hcond]
          exact hk
        · rw [if_neg hcond]
          exact hk
      · simp only [List.mem_singleton] at hnew
        rw [hnew]
        refine ⟨(if p₀.1 == keyOf t then (p₀.1, { p₀.2 with total := p₀.2.total + t.amount }) else p₀),
          List.mem_map.mpr ⟨p₀, hp₀, rfl⟩, ?_⟩
        by_cases hcond : (p₀.1 == keyOf t) = true
        · rw [if_pos hcond]
          exact hp₀k
        · rw [if_neg hcond]
          exact hp₀k

theorem TotalsInv.fold (catMap : List (String × Category)) (txs : List Transaction)
    (processed : List Transaction) (m : List (String × CatTotal))
    (h : TotalsInv catMap processed m) :
    TotalsInv catMap (processed ++ txs) (txs.foldl (addTx catMap) m) := by
  induction txs generalizing processed m with
  | nil => simpa using h
  | cons t rest ih =>
    have hstep := TotalsInv.step catMap processed m t h
    have := ih (processed ++ [t]) (addTx catMap m t) hstep
    simpa [List.append_assoc] using this

/-- The invariant holds of the finished `categoryTotalsMap`. -/
theorem categoryTotalsMap_inv (s : Store) (u : String) (a b : Int) :
    TotalsInv (buildCatMap s.categories (referencedCategoryIds (rangeTxs s u a b)))
      (rangeTxs s u a b) (categoryTotalsMap s u a b) := by
  unfold categoryTotalsMap
  have := TotalsInv.fold (buildCatMap s.categories (referencedCategoryIds (rangeTxs s u a b)))
    (rangeTxs s u a b) [] [] (TotalsInv.base _)
  simpa using this

/-! ## Discovery order of the result keys -/

/-- The grouping keys of the queried transactions in order of first
occurrence. -/
def discoveryKeys (txs : List Transaction) : List String :=
  txs.foldl (fun acc t => if keyOf t ∈ acc then acc else acc ++ [keyOf t]) []

theorem mapGetTotals_none_iff_not_mem (m : List (String × CatTotal)) (k : String) :
    mapGetTotals m k = none ↔ k ∉ m.map Prod.fst := by
  rw [mapGetTotals_eq_none_iff]
  constructor
  · intro h hk
    rcases List.mem_map.mp hk with ⟨p, hp, hfst⟩
    exact h p hp hfst
  · intro h p hp hfst
    exact h (List.mem_map.mpr ⟨p, hp, hfst⟩)

theorem foldl_addTx_keys (catMap : List (String × Category)) (txs : List Transaction)
    (m : List (String × CatTotal)) :
    (txs.foldl (addTx catMap) m).map Prod.fst =
      txs.foldl (fun acc t => if keyOf t ∈ acc then acc else acc ++ [keyOf t])
        (m.map Prod.fst) := by
  induction txs generalizing m with
  | nil => rfl
  | cons t rest ih =>
    rw [List.foldl_cons, List.foldl_cons, ih]
    congr 1
    cases hget : mapGetTotals m (keyOf t) with
    | none =>
      have hrw : addTx catMap m t =
          m ++ [(keyOf t, ⟨t.amount, t.type, resolveName catMap t.categoryId, jsOrNull t.categoryId⟩)] := by
        simp only [addTx, hget]
      have hnot : keyOf t ∉ m.map Prod.fst := (mapGetTotals_none_iff_not_mem m _).mp hget
      rw [hrw, if_neg hnot, List.map_append]
      rfl
    | some e =>
      have hrw : addTx catMap m t = bumpFirst (keyOf t) t.amount m := by
        simp only [addTx, hget]
      have hmem : keyOf t ∈ m.map Prod.fst := by
        by_contra hnot
        rw [(mapGetTotals_none_iff_not_mem m _).mpr hnot] at hget
        exact absurd hget (by simp)
      rw [hrw, if_pos hmem, bumpFirst_map_fst]

/-! ## Per-type sums -/

/-- Sum of the amounts of the transactions of one type. -/
def amountSumOfType (ty : TxType) (txs : List Transaction) : ℚ :=
  ((txs.filter (fun t => t.type == ty)).map (·.amount)).sum

/-- Sum of the `total` fields of the result rows of one type. -/
def totalsSumOfType (ty : TxType) (l : List CatTotal) : ℚ :=
  ((l.filter (fun e => e.type == ty)).map (·.total)).sum

theorem amountSumOfType_cons (ty : TxType) (t : Transaction) (txs : List Transaction) :
    amountSumOfType ty (t :: txs) =
      (if t.type == ty then t.amount else 0) + amountSumOfType ty txs := by
  unfold amountSumOfType
  rw [List.filter_cons]
  by_cases h : (t.type == ty) = true <;> simp [h]

theorem totalsSumOfType_append_single (ty : TxType) (l : List CatTotal) (e : CatTotal) :
    totalsSumOfType ty (l ++ [e]) =
      totalsSumOfType ty l + (if e.type == ty then e.total else 0) := by
  unfold totalsSumOfType
  rw [List.filter_append, List.map_append, List.sum_append]
  by_cases h : (e.type == ty) = true <;> simp [List.filter, h]

/-- Bumping the first entry with key `k` adds `amt` to the type-`tty` sum,
provided every entry keyed `k` has type `tty` and one exists. -/
theorem totalsSumOfType_bumpFirst (ty tty : TxType) (k : String) (amt : ℚ)
    (m : List (String × CatTotal))
    (hkey : ∀ p ∈ m, p.1 = k → p.2.type = tty)
    (hex : ∃ p ∈ m, p.1 = k) :
    totalsSumOfType ty ((bumpFirst k amt m).map Prod.snd) =
      totalsSumOfType ty (m.map Prod.snd) + (if tty == ty then amt else 0) := by
  induction m with
  | nil =>
    rcases hex with ⟨p, hp, _⟩
    exact absurd hp (by simp)
  | cons p rest ih =>
    unfold bumpFirst
    by_cases hpk : (p.1 == k) = true
    · have hptype : p.2.type = tty := hkey p (by simp) (by simpa using hpk)
      rw [if_pos hpk]
      simp only [List.map_cons]
      unfold totalsSumOfType
      rw [List.filter_cons, List.filter_cons]
      by_cases hty : (p.2.type == ty) = true
      · have : tty = ty := by
          have := hty
          rw [hptype] at this
          simpa using this
        simp only [show ({ p.2 with total := p.2.total + amt } : CatTotal).type = p.2.type from rfl,
          hty, if_pos, this]
        simp [List.map_cons]
        ring
      · have : ¬ tty = ty := by
          intro hc
          exact hty (by rw [hptype, hc]; simp)
        simp only [show ({ p.2 with total := p.2.total + amt } : CatTotal).type = p.2.type from rfl,
          hty]
        simp [this]
    · rw [if_neg hpk]
      have hpne : ¬ p.1 = k := by simpa using hpk
      have hex2 : ∃ q ∈ rest, q.1 = k := by
        rcases hex with ⟨q, hq, hqk⟩
        rcases List.mem_cons.mp hq with hq1 | hq2
        · exact absurd (hq1 ▸ hqk) hpne
        · exact ⟨q, hq2, hqk⟩
      have hkey2 : ∀ q ∈ rest, q.1 = k → q.2.type = tty := fun q hq => hkey q (by simp [hq])
      simp only [List.map_cons]
      unfold totalsSumOfType
      rw [List.filter_cons, List.filter_cons]
      by_cases hty : (p.2.type == ty) = true
      · simp only [hty, if_pos]
        have := ih hkey2 hex2
        unfold totalsSumOfType at this
        simp only [List.map_cons, List.sum_cons]
        rw [this]
        ring
      · simp only [hty]
        have := ih hkey2 hex2
        unfold totalsSumOfType at this
        simpa using this

/-! ## The accumulation of `getMonthlyBalance` -/

theorem foldl_balance (txs : List Transaction) (p : ℚ × ℚ) :
    txs.foldl
      (fun (p : ℚ × ℚ) t =>
        if t.type == .income then (p.1 + t.amount, p.2)
        else if t.type == .expense then (p.1, p.2 + t.amount)
        else p)
      p
    = (p.1 + amountSumOfType .income txs, p.2 + amountSumOfType .expense txs) := by
  induction txs generalizing p with
  | nil => simp [amountSumOfType]
  | cons t rest ih =>
    rw [List.foldl_cons, ih, amountSumOfType_cons, amountSumOfType_cons]
    cases ht : t.type <;> simp [ht] <;> ring

/-- Membership of the calendar month `y-m` (1-indexed), the claim-side
reading of "the date falls in the month": between the first and the true
last calendar day. -/
def inCalendarMonth (y m : Nat) (d : Int) : Bool :=
  decide (serialOfDate y m 1 ≤ d) && decide (d ≤ serialOfDate y m (daysInMonth y m))

/-- Claim-side sum: the amounts of the user's transactions of one type
dated inside the calendar month. -/
def monthlyTypeSum (s : Store) (u : String) (y m : Nat) (ty : TxType) : ℚ :=
  ((s.transactions.filter
      (fun t => t.userId == u && t.type == ty && inCalendarMonth y m t.date)).map
    (·.amount)).sum

theorem rangeTxs_month (s : Store) (u : String) (y month : Nat)
    (h1 : 1 ≤ month) (h2 : month ≤ 12) :
    rangeTxs s u (monthStartSerial y month) (monthEndSerial y month) =
      s.transactions.filter (fun t => t.userId == u && inCalendarMonth y month t.date) := by
  obtain ⟨hs, he⟩ := jsMonthWindow y month h1 h2
  unfold rangeTxs
  refine List.filter_congr ?_
  intro t _
  unfold txInRange inCalendarMonth monthStartSerial monthEndSerial
  rw [hs, he, Bool.and_assoc]

theorem amountSum_range_month (s : Store) (u : String) (y month : Nat)
    (h1 : 1 ≤ month) (h2 : month ≤ 12) (ty : TxType) :
    amountSumOfType ty (rangeTxs s u (monthStartSerial y month) (monthEndSerial y month)) =
      monthlyTypeSum s u y month ty := by
  unfold amountSumOfType monthlyTypeSum
  rw [rangeTxs_month s u y month h1 h2, List.filter_filter]
  have hfe : List.filter
        (fun a => a.type == ty && (a.userId == u && inCalendarMonth y month a.date))
        s.transactions =
      List.filter (fun t => t.userId == u && t.type == ty && inCalendarMonth y month t.date)
        s.transactions := by
    refine List.filter_congr ?_
    intro t _
    cases hu : t.userId == u <;> cases hty : t.type == ty <;>
      cases hc : inCalendarMonth y month t.date <;> simp [hu, hty, hc]
  rw [hfe]

/-- C1. `getMonthlyBalance` returns, for every user and every month 1–12
of a 4-digit year, exactly the sum of the amounts of the user's `income`
transactions dated in the calendar month as `income`, the sum over the
`expense` transactions as `expenses`, and `balance = income - expenses`;
when no transaction of the user falls in the month it returns
`{income: 0, expenses: 0, balance: 0}`, and it never returns an error
(`undefined`): the result is always `some`. -/
theorem C1_monthly_balance (s : Store) (u : String) (year month : Nat)
    (hy1 : 1000 ≤ year) (hy2 : year ≤ 9999) (h1 : 1 ≤ month) (h2 : month ≤ 12) :
    getMonthlyBalance s u year month =
      some ⟨monthlyTypeSum s u year month .income, monthlyTypeSum s u year month .expense,
            monthlyTypeSum s u year month .income - monthlyTypeSum s u year month .expense⟩ ∧
    (s.transactions.filter (fun t => t.userId == u && inCalendarMonth year month t.date) = [] →
      getMonthlyBalance s u year month = some ⟨0, 0, 0⟩) := by
  have hmain : getMonthlyBalance s u year month =
      some ⟨monthlyTypeSum s u year month .income, monthlyTypeSum s u year month .expense,
            monthlyTypeSum s u year month .income - monthlyTypeSum s u year month .expense⟩ := by
    simp only [getMonthlyBalance]
    rw [foldl_balance]
    rw [amountSum_range_month s u year month h1 h2, amountSum_range_month s u year month h1 h2]
    simp
  refine ⟨hmain, ?_⟩
  intro hempty
  have hz : ∀ ty, monthlyTypeSum s u year month ty = 0 := by
    intro ty
    unfold monthlyTypeSum
    have hnil : s.transactions.filter
        (fun t => t.userId == u && t.type == ty && inCalendarMonth year month t.date) = [] := by
      rw [List.filter_eq_nil_iff]
      intro t ht hpred
      simp only [Bool.and_eq_true] at hpred
      have hpred2 : (t.userId == u && inCalendarMonth year month t.date) = true := by
        simp [hpred.1.1, hpred.2]
      exact absurd hpred2 (by
        have := List.filter_eq_nil_iff.mp hempty t ht
        simpa using this)
    rw [hnil]
    rfl
  rw [hmain, hz .income, hz .expense]
  norm_num

/-- Spec scenario store: three transactions of user `U1` dated 2024-02-10
(expense 50, category `g`), 2024-02-29 (income 1000, no category) and
2024-03-01 (expense 30, category `g`). -/
def scenStore : Store :=
  { categories := [⟨"g", "U1", "groceries", "cart", "#00aa00", .expense, 0⟩]
    transactions := [
      ⟨"tA", "U1", some "g", "mercado", 50, .expense, some "pix", serialOfDate 2024 2 10, 0⟩,
      ⟨"tB", "U1", none, "salario", 1000, .income, none, serialOfDate 2024 2 29, 1⟩,
      ⟨"tC", "U1", some "g", "padaria", 30, .expense, none, serialOfDate 2024 3 1, 2⟩]
    budgets := []
    savingsGoals := [] }

/-- Witness for C1 on the spec scenario: February 2024 yields income 1000,
expenses 50, balance 950 (the March 1 transaction is excluded). -/
theorem C1_monthly_balance_witness :
    getMonthlyBalance scenStore "U1" 2024 2 =
      some ⟨monthlyTypeSum scenStore "U1" 2024 2 .income,
            monthlyTypeSum scenStore "U1" 2024 2 .expense,
            monthlyTypeSum scenStore "U1" 2024 2 .income -
              monthlyTypeSum scenStore "U1" 2024 2 .expense⟩ ∧
    monthlyTypeSum scenStore "U1" 2024 2 .income = 1000 ∧
    monthlyTypeSum scenStore "U1" 2024 2 .expense = 50 := by
  refine ⟨(C1_monthly_balance scenStore "U1" 2024 2 (by decide) (by decide) (by decide)
    (by decide)).1, ?_, ?_⟩
  · have h29 : inCalendarMonth 2024 2 (serialOfDate 2024 2 29) = true := by decide
    simp [monthlyTypeSum, scenStore, List.filter, h29,
      (by decide : (TxType.expense == TxType.income) = false),
      (by decide : (TxType.income == TxType.income) = true)]
  · have h10 : inCalendarMonth 2024 2 (serialOfDate 2024 2 10) = true := by decide
    have h31 : inCalendarMonth 2024 2 (serialOfDate 2024 3 1) = false := by decide
    simp [monthlyTypeSum, scenStore, List.filter, h10, h31,
      (by decide : (TxType.expense == TxType.expense) = true),
      (by decide : (TxType.income == TxType.expense) = false)]

/-- C2. For every 4-digit year and month 1–12, the inclusive window used
by `getMonthlyBalance` runs from the first day of that month to the true
last calendar day `daysInMonth` (28–31, leap-year aware), never a fixed
31; concretely, any transaction dated 2024-02-29 passes the February-2024
range query and any transaction dated 2024-03-01 does not. -/
theorem C2_month_window (y month : Nat) (hy1 : 1000 ≤ y) (hy2 : y ≤ 9999)
    (h1 : 1 ≤ month) (h2 : month ≤ 12) :
    monthStartSerial y month = serialOfDate y month 1 ∧
    monthEndSerial y month = serialOfDate y month (daysInMonth y month) ∧
    28 ≤ daysInMonth y month ∧ daysInMonth y month ≤ 31 ∧
    (isLeap y = false → daysInMonth y 2 = 28) ∧
    (isLeap y = true → daysInMonth y 2 = 29) ∧
    (∀ (s : Store) (u : String) (t : Transaction), t ∈ s.transactions →
      (t.userId == u) = true →
      (t.date = serialOfDate 2024 2 29 →
        t ∈ rangeTxs s u (monthStartSerial 2024 2) (monthEndSerial 2024 2)) ∧
      (t.date = serialOfDate 2024 3 1 →
        t ∉ rangeTxs s u (monthStartSerial 2024 2) (monthEndSerial 2024 2))) := by
  obtain ⟨hs, he⟩ := jsMonthWindow y month h1 h2
  refine ⟨hs, he, ?_, ?_, ?_, ?_, ?_⟩
  · interval_cases month <;> first
      | decide
      | (by_cases hL : isLeap y <;> simp [daysInMonth, hL])
  · interval_cases month <;> first
      | decide
      | (by_cases hL : isLeap y <;> simp [daysInMonth, hL])
  · intro hL
    simp [daysInMonth, hL]
  · intro hL
    simp [daysInMonth, hL]
  · intro s u t ht hu
    constructor
    · intro hdate
      refine List.mem_filter.mpr ⟨ht, ?_⟩
      unfold txInRange
      rw [hdate, hu]
      decide
    · intro hdate hmem
      have hcond := (List.mem_filter.mp hmem).2
      unfold txInRange at hcond
      rw [hdate] at hcond
      have hfalse : decide (serialOfDate 2024 3 1 ≤ monthEndSerial 2024 2) = false := by decide
      rw [hfalse, Bool.and_false] at hcond
      exact absurd hcond (by simp)

/-- Witness for C2 at year 2024 (a leap year), month 2. -/
theorem C2_month_window_witness :
    monthStartSerial 2024 2 = serialOfDate 2024 2 1 ∧
    monthEndSerial 2024 2 = serialOfDate 2024 2 (daysInMonth 2024 2) ∧
    daysInMonth 2024 2 = 29 := by
  obtain ⟨ha, hb, _, _, _, hleap, _⟩ :=
    C2_month_window 2024 2 (by decide) (by decide) (by decide) (by decide)
  exact ⟨ha, hb, hleap (by decide)⟩

/-! ## Claim C3: order of the `getCategoryTotals` result -/

/-- Concrete store for C3: an expense of 50 discovered before an income of
1000 — the result keeps discovery order `[50, 1000]`, which is not
descending by `total`. -/
def unsortedStore : Store :=
  { categories := [⟨"g", "U1", "groceries", "cart", "#00aa00", .expense, 0⟩]
    transactions := [
      ⟨"t1", "U1", some "g", "food", 50, .expense, none, 5, 0⟩,
      ⟨"t2", "U1", none, "salary", 1000, .income, none, 6, 1⟩]
    budgets := []
    savingsGoals := [] }

/-- C3 counterexample. `getCategoryTotals` applies no sort: on
`unsortedStore` the totals come back `[50, 1000]`, and descending order by
`total` would require `1000 ≤ 50`.  This refutes the claim that the result
is sorted in descending order of `total`. -/
theorem C3_counterexample :
    (getCategoryTotals unsortedStore "U1" 0 10).map (fun l => l.map (·.total)) =
      some [50, 1000] ∧
    ¬ ((1000 : ℚ) ≤ 50) := by
  constructor
  · rfl
  · norm_num

/-- C3 (amended). The rows of `getCategoryTotals` are returned in
discovery order: one row per distinct grouping key
`` `${categoryId || 'uncategorized'}-${type}` ``, in order of the key's
first occurrence among the queried transactions (no sorting by `total` is
applied). -/
theorem C3_discovery_order (s : Store) (u : String) (a b : Int) (l : List CatTotal)
    (hl : getCategoryTotals s u a b = some l) :
    l.map (fun e => catKeyStr e.categoryId ++ "-" ++ typeStr e.type) =
      discoveryKeys (rangeTxs s u a b) ∧
    (l.map (fun e => catKeyStr e.categoryId ++ "-" ++ typeStr e.type)).Nodup := by
  have hinv := categoryTotalsMap_inv s u a b
  have hml : (categoryTotalsMap s u a b).map (·.2) = l := Option.some.inj hl
  have hcomp : ((categoryTotalsMap s u a b).map (·.2)).map
      (fun e => catKeyStr e.categoryId ++ "-" ++ typeStr e.type) =
      (categoryTotalsMap s u a b).map Prod.fst := by
    rw [List.map_map]
    refine List.map_congr_left ?_
    intro p hp
    exact (hinv.key_eq p hp).symm
  have hkeys : (categoryTotalsMap s u a b).map Prod.fst = discoveryKeys (rangeTxs s u a b) := by
    unfold categoryTotalsMap discoveryKeys
    have := foldl_addTx_keys
      (buildCatMap s.categories (referencedCategoryIds (rangeTxs s u a b)))
      (rangeTxs s u a b) []
    simpa using this
  rw [← hml]
  exact ⟨hcomp.trans hkeys, hcomp ▸ hinv.nodup⟩

/-- Witness for the amended C3 on `unsortedStore`: the two row keys come
out in discovery order `groceries-expense`, `uncategorized-income`. -/
theorem C3_discovery_order_witness :
    ([⟨50, .expense, "groceries", some "g"⟩,
      ⟨1000, .income, "Uncategorized", none⟩] : List CatTotal).map
        (fun e => catKeyStr e.categoryId ++ "-" ++ typeStr e.type) =
      discoveryKeys (rangeTxs unsortedStore "U1" 0 10) :=
  (C3_discovery_order unsortedStore "U1" 0 10 _ rfl).1

/-! ## Claim C8: category totals partition the monthly figures -/

theorem getMonthlyBalance_eq (s : Store) (u : String) (year month : Nat) :
    getMonthlyBalance s u year month =
      some ⟨amountSumOfType .income
              (rangeTxs s u (monthStartSerial year month) (monthEndSerial year month)),
            amountSumOfType .expense
              (rangeTxs s u (monthStartSerial year month) (monthEndSerial year month)),
            amountSumOfType .income
              (rangeTxs s u (monthStartSerial year month) (monthEndSerial year month)) -
            amountSumOfType .expense
              (rangeTxs s u (monthStartSerial year month) (monthEndSerial year month))⟩ := by
  simp only [getMonthlyBalance]
  rw [foldl_balance]
  simp

theorem totalsSum_foldl (catMap : List (String × Category)) (ty : TxType)
    (txs processed : List Transaction) (m : List (String × CatTotal))
    (h : TotalsInv catMap processed m) :
    totalsSumOfType ty ((txs.foldl (addTx catMap) m).map (·.2)) =
      totalsSumOfType ty (m.map (·.2)) + amountSumOfType ty txs := by
  induction txs generalizing processed m with
  | nil => simp [amountSumOfType, totalsSumOfType]
  | cons t rest ih =>
    rw [List.foldl_cons]
    have hstep := TotalsInv.step catMap processed m t h
    rw [ih (processed ++ [t]) _ hstep, amountSumOfType_cons]
    have haddtx : totalsSumOfType ty ((addTx catMap m t).map (·.2)) =
        totalsSumOfType ty (m.map (·.2)) + (if t.type == ty then t.amount else 0) := by
      cases hget : mapGetTotals m (keyOf t) with
      | none =>
        have hrw : addTx catMap m t =
            m ++ [(keyOf t, ⟨t.amount, t.type, resolveName catMap t.categoryId,
              jsOrNull t.categoryId⟩)] := by
          simp only [addTx, hget]
        rw [hrw, List.map_append]
        simpa using totalsSumOfType_append_single ty (m.map (·.2))
          ⟨t.amount, t.type, resolveName catMap t.categoryId, jsOrNull t.categoryId⟩
      | some e =>
        have hrw : addTx catMap m t = bumpFirst (keyOf t) t.amount m := by
          simp only [addTx, hget]
        rw [hrw]
        refine totalsSumOfType_bumpFirst ty t.type (keyOf t) t.amount m ?_ ?_
        · intro p hp hpk
          have hk := h.key_eq p hp
          rw [hpk] at hk
          exact (key_append_inj _ _ _ _ hk.symm).2
        · rcases mapGetTotals_some_mem m _ e hget with ⟨p₀, hp₀, hp₀k, _⟩
          exact ⟨p₀, hp₀, hp₀k⟩
    rw [haddtx]
    ring

theorem totalsSum_eq_amountSum (s : Store) (u : String) (a b : Int) (ty : TxType) :
    totalsSumOfType ty ((categoryTotalsMap s u a b).map (·.2)) =
      amountSumOfType ty (rangeTxs s u a b) := by
  unfold categoryTotalsMap
  have := totalsSum_foldl
    (buildCatMap s.categories (referencedCategoryIds (rangeTxs s u a b))) ty
    (rangeTxs s u a b) [] [] (TotalsInv.base _)
  simpa [totalsSumOfType] using this

/-- C8. For every user and month, the `total` fields of the
`getCategoryTotals` rows of type `expense`, over the same month window,
sum to exactly the `expenses` figure of `getMonthlyBalance`, and likewise
the `income` rows sum to `income`. -/
theorem C8_partition (s : Store) (u : String) (year month : Nat)
    (h1 : 1 ≤ month) (h2 : month ≤ 12) (mb : MonthlyBalance) (l : List CatTotal)
    (hmb : getMonthlyBalance s u year month = some mb)
    (hl : getCategoryTotals s u (monthStartSerial year month) (monthEndSerial year month) =
      some l) :
    totalsSumOfType .expense l = mb.expenses ∧ totalsSumOfType .income l = mb.income := by
  have hml : (categoryTotalsMap s u (monthStartSerial year month)
      (monthEndSerial year month)).map (·.2) = l := Option.some.inj hl
  rw [getMonthlyBalance_eq] at hmb
  have hmb2 := Option.some.inj hmb
  rw [← hml, ← hmb2]
  exact ⟨totalsSum_eq_amountSum s u _ _ .expense, totalsSum_eq_amountSum s u _ _ .income⟩

def febTotals : List CatTotal :=
  [⟨50, .expense, "groceries", some "g"⟩, ⟨1000, .income, "Uncategorized", none⟩]

def febBalance : MonthlyBalance := ⟨0 + 1000, 0 + 50, 0 + 1000 - (0 + 50)⟩

/-- Witness for C8 on the spec scenario store in February 2024. -/
theorem C8_partition_witness :
    totalsSumOfType .expense febTotals = febBalance.expenses ∧
    totalsSumOfType .income febTotals = febBalance.income :=
  C8_partition scenStore "U1" 2024 2 (by decide) (by decide) febBalance febTotals rfl rfl

/-! ## Claims C5 and C10: sentinel grouping -/

theorem jsOrNull_eq_some (c0 : Option String) (c : String) (h : jsOrNull c0 = some c) :
    c0 = some c ∧ ¬ c = "" := by
  rcases c0 with _ | s
  · simp [jsOrNull, jsStrFalsy] at h
  · by_cases hs : s = ""
    · simp [jsOrNull, jsStrFalsy, hs] at h
    · simp only [jsOrNull, jsStrFalsy] at h
      rw [if_neg (by simpa using hs)] at h
      have : s = c := Option.some.inj h
      subst this
      exact ⟨rfl, hs⟩

theorem catKeyStr_of_falsy (c : Option String) (h : jsStrFalsy c = true) :
    catKeyStr c = "uncategorized" :=
  (catKeyStr_eq_sentinel_iff c).mpr (Or.inl h)

/-- On category ids that are neither the empty string nor the literal
sentinel, `catKeyStr` is injective. -/
theorem catKeyStr_inj_restricted (c1 c2 : Option String)
    (h1a : c1 ≠ some "") (h1b : c1 ≠ some "uncategorized")
    (h2a : c2 ≠ some "") (h2b : c2 ≠ some "uncategorized")
    (h : catKeyStr c1 = catKeyStr c2) : c1 = c2 := by
  rcases c1 with _ | s1 <;> rcases c2 with _ | s2
  · rfl
  · have hs2 : ¬ s2 = "" := fun hc => h2a (by rw [hc])
    have hk2 : catKeyStr (some s2) = s2 := by simp [catKeyStr, hs2]
    rw [hk2] at h
    have hsent : s2 = "uncategorized" := h.symm
    exact absurd (congrArg some hsent) h2b
  · have hs1 : ¬ s1 = "" := fun hc => h1a (by rw [hc])
    have hk1 : catKeyStr (some s1) = s1 := by simp [catKeyStr, hs1]
    rw [hk1] at h
    have hsent : s1 = "uncategorized" := h
    exact absurd (congrArg some hsent) h1b
  · have hs1 : ¬ s1 = "" := fun hc => h1a (by rw [hc])
    have hs2 : ¬ s2 = "" := fun hc => h2a (by rw [hc])
    have hk1 : catKeyStr (some s1) = s1 := by simp [catKeyStr, hs1]
    have hk2 : catKeyStr (some s2) = s2 := by simp [catKeyStr, hs2]
    rw [hk1, hk2] at h
    rw [h]

/-- The grouping key of `t` matches the key of the null-category group of
type `ty` exactly when `t.categoryId` is falsy and the types agree —
provided `t.categoryId` is not the literal sentinel string. -/
theorem keyOf_beq_null_key (t : Transaction) (ty : TxType)
    (hst : ¬ t.categoryId = some "uncategorized") :
    (keyOf t == catKeyStr none ++ "-" ++ typeStr ty) =
      (jsStrFalsy t.categoryId && t.type == ty) := by
  rw [Bool.eq_iff_iff]
  simp only [beq_iff_eq, Bool.and_eq_true]
  constructor
  · intro h
    have h2 : catKeyStr t.categoryId ++ "-" ++ typeStr t.type =
        catKeyStr none ++ "-" ++ typeStr ty := h
    obtain ⟨hcat, hty⟩ := key_append_inj _ _ _ _ h2
    refine ⟨?_, hty⟩
    rcases (catKeyStr_eq_sentinel_iff t.categoryId).mp hcat with hf | hs
    · exact hf
    · exact absurd hs hst
  · rintro ⟨hf, hty⟩
    have h1 : catKeyStr t.categoryId = "uncategorized" := catKeyStr_of_falsy _ hf
    show keyOf t = _
    unfold keyOf
    rw [h1, hty]
    rfl

/-- The grouping key of `t` matches the key of the group of a plain
category id `c` and type `ty` exactly when `t.categoryId = some c` and the
types agree. -/
theorem keyOf_beq_some_key (t : Transaction) (c : String) (ty : TxType)
    (hc1 : ¬ c = "") (hc2 : ¬ c = "uncategorized")
    (hst : ¬ t.categoryId = some "uncategorized") :
    (keyOf t == catKeyStr (some c) ++ "-" ++ typeStr ty) =
      (t.categoryId == some c && t.type == ty) := by
  rw [Bool.eq_iff_iff]
  simp only [beq_iff_eq, Bool.and_eq_true]
  have hkc : catKeyStr (some c) = c := by simp [catKeyStr, hc1]
  constructor
  · intro h
    have h2 : catKeyStr t.categoryId ++ "-" ++ typeStr t.type =
        catKeyStr (some c) ++ "-" ++ typeStr ty := h
    obtain ⟨hcat, hty⟩ := key_append_inj _ _ _ _ h2
    rw [hkc] at hcat
    exact ⟨(catKeyStr_eq_iff t.categoryId c hc1 hc2).mp hcat, hty⟩
  · rintro ⟨hcid, hty⟩
    show keyOf t = _
    unfold keyOf
    rw [hcid, hty]

/-- Characterisation of a finished null-category row: named
`Uncategorized` and totalling exactly the falsy-category transactions of
its type. -/
theorem null_entry_char (s : Store) (u : String) (a b : Int)
    (hsent : ∀ t ∈ s.transactions, ¬ t.categoryId = some "uncategorized") :
    ∀ p ∈ categoryTotalsMap s u a b, p.2.categoryId = none →
      p.2.categoryName = "Uncategorized" ∧
      p.2.total = (((rangeTxs s u a b).filter
        (fun t => jsStrFalsy t.categoryId && t.type == p.2.type)).map (·.amount)).sum := by
  intro p hp hcid
  have hinv := categoryTotalsMap_inv s u a b
  constructor
  · have hname := hinv.name_eq p hp
    rw [hcid] at hname
    exact hname.trans (resolveName_none _)
  · have htot := hinv.total_eq p hp
    have hkey := hinv.key_eq p hp
    rw [hcid] at hkey
    rw [htot, hkey]
    unfold sumKey
    refine congrArg List.sum (congrArg (List.map (fun t : Transaction => t.amount)) (List.filter_congr ?_))
    intro t ht
    exact keyOf_beq_null_key t p.2.type (hsent t (List.mem_of_mem_filter ht))

/-- Characterisation of a finished plain-category row: if the id is
dangling the row is named `Unknown Category`, and it totals exactly the
transactions carrying that id and its type. -/
theorem some_entry_char (s : Store) (u : String) (a b : Int)
    (hsent : ∀ t ∈ s.transactions, ¬ t.categoryId = some "uncategorized") :
    ∀ p ∈ categoryTotalsMap s u a b, ∀ c, p.2.categoryId = some c →
      (s.categories.find? (fun cat => cat.id == c) = none →
        p.2.categoryName = "Unknown Category") ∧
      p.2.total = (((rangeTxs s u a b).filter
        (fun t => t.categoryId == some c && t.type == p.2.type)).map (·.amount)).sum := by
  intro p hp c hcid
  have hinv := categoryTotalsMap_inv s u a b
  rcases hinv.cid_origin p hp with ⟨t0, ht0, hj, _⟩
  have hc1 : ¬ c = "" := by
    intro hc
    apply jsOrNull_ne_some_empty t0.categoryId
    rw [hj, hcid, hc]
  have hc2 : ¬ c = "uncategorized" := by
    intro hc
    have : jsOrNull t0.categoryId = some "uncategorized" := by rw [hj, hcid, hc]
    rcases jsOrNull_eq_some _ _ this with ⟨ht0c, _⟩
    exact hsent t0 (List.mem_of_mem_filter ht0) ht0c
  constructor
  · intro hfind
    have hname := hinv.name_eq p hp
    rw [hcid] at hname
    rw [hname]
    exact resolveName_dangling s.categories _ c hc1 hfind
  · have htot := hinv.total_eq p hp
    have hkey := hinv.key_eq p hp
    rw [hcid] at hkey
    rw [htot, hkey]
    unfold sumKey
    refine congrArg List.sum (congrArg (List.map (fun t : Transaction => t.amount)) (List.filter_congr ?_))
    intro t ht
    exact keyOf_beq_some_key t c p.2.type hc1 hc2 (hsent t (List.mem_of_mem_filter ht))

/-- Under the no-sentinel proviso every queried transaction has a row
whose `categoryId` is exactly its normalised (`|| null`) category id and
whose type is its own. -/
theorem covers_strong (s : Store) (u : String) (a b : Int)
    (hsent : ∀ t ∈ s.transactions, ¬ t.categoryId = some "uncategorized") :
    ∀ t ∈ rangeTxs s u a b, ∃ p ∈ categoryTotalsMap s u a b,
      p.2.categoryId = jsOrNull t.categoryId ∧ p.2.type = t.type := by
  intro t ht
  have hinv := categoryTotalsMap_inv s u a b
  rcases hinv.covers t ht with ⟨p, hp, hk⟩
  have hkey := hinv.key_eq p hp
  rw [hk] at hkey
  have hkey2 : catKeyStr t.categoryId ++ "-" ++ typeStr t.type =
      catKeyStr p.2.categoryId ++ "-" ++ typeStr p.2.type := hkey
  obtain ⟨hcat, hty⟩ := key_append_inj _ _ _ _ hkey2
  rcases hinv.cid_origin p hp with ⟨t0, ht0, hj, _⟩
  have hpne1 : p.2.categoryId ≠ some "" := by
    rw [← hj]
    exact jsOrNull_ne_some_empty _
  have hpne2 : p.2.categoryId ≠ some "uncategorized" := by
    rw [← hj]
    intro hc
    rcases jsOrNull_eq_some _ _ hc with ⟨ht0c, _⟩
    exact hsent t0 (List.mem_of_mem_filter ht0) ht0c
  refine ⟨p, hp, ?_, hty.symm⟩
  refine catKeyStr_inj_restricted _ _ hpne1 hpne2 (jsOrNull_ne_some_empty _) ?_ ?_
  · intro hc
    rcases jsOrNull_eq_some _ _ hc with ⟨htc, _⟩
    exact hsent t (List.mem_of_mem_filter ht) htc
  · rw [catKeyStr_jsOrNull]
    exact hcat.symm

/-- Concrete store for the C5 counterexample: a null-category expense and
a dangling expense whose `categoryId` is the literal string
`uncategorized` (no category document exists at all). -/
def sentinelStore : Store :=
  { categories := []
    transactions := [
      ⟨"t1", "U1", none, "a", 7, .expense, none, 5, 0⟩,
      ⟨"t2", "U1", some "uncategorized", "b", 5, .expense, none, 6, 1⟩]
    budgets := []
    savingsGoals := [] }

/-- C5 counterexample.  On `sentinelStore` the dangling transaction `t2`
(its `categoryId` is `"uncategorized"`, which matches no category) is
merged into the null-category group: the result has a single row, named
`Uncategorized` with `categoryId` null, whose total absorbs both amounts.
This refutes the claim that a dangling transaction always contributes to
an `Unknown Category` row and that the null group and a dangling group
are never merged: the key `` `${categoryId || 'uncategorized'}-${type}` ``
collides on the literal id `"uncategorized"`. -/
theorem C5_counterexample :
    (getCategoryTotals sentinelStore "U1" 0 10).map
        (fun l => (l.length, l.map (·.categoryName), l.map (·.categoryId))) =
      some (1, ["Uncategorized"], [none]) ∧
    sentinelStore.categories.find? (fun cat => cat.id == "uncategorized") = none :=
  ⟨rfl, rfl⟩

/-- C5 (amended).  Provided no queried transaction carries the literal
category id `"uncategorized"` (the sentinel the grouping key uses for
falsy ids), `getCategoryTotals` keeps the null group and the dangling
groups apart: every row with `categoryId` null is named `Uncategorized`
and totals exactly the falsy-category transactions of its type; every row
with `categoryId = some c` is named `Unknown Category` whenever `c`
matches no category document, and totals exactly the transactions with
that id and its type; every falsy-category transaction has a
null-`categoryId` row of its type and every plain-id transaction has a
row carrying its id and type. -/
theorem C5_sentinel_groups (s : Store) (u : String) (a b : Int) (l : List CatTotal)
    (hsent : ∀ t ∈ s.transactions, ¬ t.categoryId = some "uncategorized")
    (hl : getCategoryTotals s u a b = some l) :
    (∀ e ∈ l, e.categoryId = none →
      e.categoryName = "Uncategorized" ∧
      e.total = (((rangeTxs s u a b).filter
        (fun t => jsStrFalsy t.categoryId && t.type == e.type)).map (·.amount)).sum) ∧
    (∀ e ∈ l, ∀ c, e.categoryId = some c →
      (s.categories.find? (fun cat => cat.id == c) = none →
        e.categoryName = "Unknown Category") ∧
      e.total = (((rangeTxs s u a b).filter
        (fun t => t.categoryId == some c && t.type == e.type)).map (·.amount)).sum) ∧
    (∀ t ∈ rangeTxs s u a b, jsStrFalsy t.categoryId = true →
      ∃ e ∈ l, e.categoryId = none ∧ e.type = t.type) ∧
    (∀ t ∈ rangeTxs s u a b, ∀ c, t.categoryId = some c → ¬ c = "" →
      ∃ e ∈ l, e.categoryId = some c ∧ e.type = t.type) := by
  have hml : (categoryTotalsMap s u a b).map (·.2) = l := Option.some.inj hl
  refine ⟨?_, ?_, ?_, ?_⟩
  · intro e he hcid
    rw [← hml] at he
    rcases List.mem_map.mp he with ⟨p, hp, hpe⟩
    have := null_entry_char s u a b hsent p hp (by rw [hpe]; exact hcid)
    rw [hpe] at this
    exact this
  · intro e he c hcid
    rw [← hml] at he
    rcases List.mem_map.mp he with ⟨p, hp, hpe⟩
    have := some_entry_char s u a b hsent p hp c (by rw [hpe]; exact hcid)
    rw [hpe] at this
    exact this
  · intro t ht hf
    rcases covers_strong s u a b hsent t ht with ⟨p, hp, hcid, hty⟩
    refine ⟨p.2, by rw [← hml]; exact List.mem_map.mpr ⟨p, hp, rfl⟩, ?_, hty⟩
    rw [hcid]
    unfold jsOrNull
    rw [if_pos hf]
  · intro t ht c hcid hc
    rcases covers_strong s u a b hsent t ht with ⟨p, hp, hpcid, hty⟩
    refine ⟨p.2, by rw [← hml]; exact List.mem_map.mpr ⟨p, hp, rfl⟩, ?_, hty⟩
    rw [hpcid, hcid]
    unfold jsOrNull
    rw [if_neg (by simpa [jsStrFalsy] using hc)]

/-- Store for the C5 witness: a null-category expense and an expense with
a dangling plain id `ghost`. -/
def w5Store : Store :=
  { categories := []
    transactions := [
      ⟨"t1", "U1", none, "a", 7, .expense, none, 5, 0⟩,
      ⟨"t2", "U1", some "ghost", "b", 5, .expense, none, 6, 1⟩]
    budgets := []
    savingsGoals := [] }

/-- Witness for the amended C5 on `w5Store`: the null row is named
`Uncategorized` with the falsy total, and the dangling `ghost` row is
named `Unknown Category`. -/
theorem C5_sentinel_groups_witness :
    ((⟨7, .expense, "Uncategorized", none⟩ : CatTotal).categoryName = "Uncategorized" ∧
      (⟨7, .expense, "Uncategorized", none⟩ : CatTotal).total =
        (((rangeTxs w5Store "U1" 0 10).filter
          (fun t => jsStrFalsy t.categoryId &&
            t.type == (⟨7, .expense, "Uncategorized", none⟩ : CatTotal).type)).map
          (·.amount)).sum) ∧
    (w5Store.categories.find? (fun cat => cat.id == "ghost") = none →
      (⟨5, .expense, "Unknown Category", some "ghost"⟩ : CatTotal).categoryName =
        "Unknown Category") := by
  have h := C5_sentinel_groups w5Store "U1" 0 10
    [⟨7, .expense, "Uncategorized", none⟩, ⟨5, .expense, "Unknown Category", some "ghost"⟩]
    (by decide) rfl
  exact ⟨h.1 _ (List.mem_cons_self _ _) rfl,
    (h.2.1 _ (List.mem_cons_of_mem _ (List.mem_cons_self _ _)) "ghost" rfl).1⟩

/-- Concrete store for the C10 counterexample: a dangling transaction with
the literal id `"uncategorized"` discovered first, then an empty-string
transaction. -/
def emptyStringStore : Store :=
  { categories := []
    transactions := [
      ⟨"t1", "U1", some "uncategorized", "a", 5, .expense, none, 5, 0⟩,
      ⟨"t2", "U1", some "", "b", 7, .expense, none, 6, 1⟩]
    budgets := []
    savingsGoals := [] }

/-- C10 counterexample.  On `emptyStringStore` the empty-string
transaction `t2` is merged into the group created by the dangling
sentinel-id transaction `t1`: the single result row is named
`Unknown Category` and its `categoryId` is `some "uncategorized"`, not
null.  This refutes the claim that an empty-string transaction always
ends up in a row with `categoryName = "Uncategorized"` and
`categoryId = null` and is never treated as part of a dangling
`Unknown Category` group. -/
theorem C10_counterexample :
    (getCategoryTotals emptyStringStore "U1" 0 10).map
        (fun l => (l.length, l.map (·.categoryName), l.map (·.categoryId))) =
      some (1, ["Unknown Category"], [some "uncategorized"]) ∧
    emptyStringStore.categories.find? (fun cat => cat.id == "uncategorized") = none :=
  ⟨rfl, rfl⟩

/-- C10 (amended).  Provided no queried transaction carries the literal
category id `"uncategorized"`, every transaction whose `categoryId` is the
empty string is grouped exactly like the null-category transactions: its
row has `categoryId` null, is named `Uncategorized`, and totals all
falsy-category (null or empty-string) transactions of its type — it is
never treated as a dangling `Unknown Category` reference. -/
theorem C10_empty_string_uncategorized (s : Store) (u : String) (a b : Int)
    (l : List CatTotal)
    (hsent : ∀ t ∈ s.transactions, ¬ t.categoryId = some "uncategorized")
    (hl : getCategoryTotals s u a b = some l) :
    ∀ t ∈ rangeTxs s u a b, t.categoryId = some "" →
      ∃ e ∈ l, e.categoryId = none ∧ e.categoryName = "Uncategorized" ∧ e.type = t.type ∧
        e.total = (((rangeTxs s u a b).filter
          (fun t2 => jsStrFalsy t2.categoryId && t2.type == t.type)).map (·.amount)).sum := by
  intro t ht hcid
  have hml : (categoryTotalsMap s u a b).map (·.2) = l := Option.some.inj hl
  rcases covers_strong s u a b hsent t ht with ⟨p, hp, hpcid, hpty⟩
  have hcidnone : p.2.categoryId = none := by
    rw [hpcid, hcid]
    rfl
  have hchar := null_entry_char s u a b hsent p hp hcidnone
  refine ⟨p.2, by rw [← hml]; exact List.mem_map.mpr ⟨p, hp, rfl⟩,
    hcidnone, hchar.1, hpty, ?_⟩
  rw [hchar.2, hpty]

/-- Store for the C10 witness: a single empty-string-category expense. -/
def w10Store : Store :=
  { categories := []
    transactions := [⟨"t1", "U1", some "", "a", 7, .expense, none, 5, 0⟩]
    budgets := []
    savingsGoals := [] }

/-- Witness for the amended C10 on `w10Store`: the empty-string
transaction yields the row `⟨7, expense, "Uncategorized", none⟩`. -/
theorem C10_empty_string_witness :
    (⟨7, .expense, "Uncategorized", none⟩ : CatTotal).categoryId = none ∧
    (⟨7, .expense, "Uncategorized", none⟩ : CatTotal).categoryName = "Uncategorized" ∧
    (⟨7, .expense, "Uncategorized", none⟩ : CatTotal).total =
      (((rangeTxs w10Store "U1" 0 10).filter
        (fun t2 => jsStrFalsy t2.categoryId && t2.type == TxType.expense)).map
        (·.amount)).sum := by
  have h := C10_empty_string_uncategorized w10Store "U1" 0 10
    [⟨7, .expense, "Uncategorized", none⟩] (by decide) rfl
    ⟨"t1", "U1", some "", "a", 7, .expense, none, 5, 0⟩
    (List.mem_filter.mpr ⟨List.mem_cons_self _ _, by decide⟩) rfl
  rcases h with ⟨e, he, h1, h2, h3, h4⟩
  have he2 : e = ⟨7, .expense, "Uncategorized", none⟩ := List.mem_singleton.mp he
  rw [he2] at h1 h2 h4
  exact ⟨h1, h2, h4⟩

/-! ## Claims C4, C6, C7: the progress evaluators -/

/-- C7. For `spent ≥ 0` and `limit > 0` the percentage is the finite
rational `spent / limit * 100` and `getBudgetStatus` classifies it by the
claimed thresholds: `≥ 100` over, `80 ≤ _ < 100` warning, `< 80` good; in
particular `(79,100)` is good, `(80,100)` warning, `(100,100)` over. -/
theorem C7_budget_status (spent limit : ℚ) (hs : 0 ≤ spent) (hl : 0 < limit) :
    (100 ≤ spent / limit * 100 → (getBudgetStatus spent limit).status = "over") ∧
    (80 ≤ spent / limit * 100 → spent / limit * 100 < 100 →
      (getBudgetStatus spent limit).status = "warning") ∧
    (spent / limit * 100 < 80 → (getBudgetStatus spent limit).status = "good") ∧
    (getBudgetStatus 79 100).status = "good" ∧
    (getBudgetStatus 80 100).status = "warning" ∧
    (getBudgetStatus 100 100).status = "over" := by
  have hne : limit ≠ 0 := ne_of_gt hl
  have hdiv : jsDivNum spent limit = .num (spent / limit) := by simp [jsDivNum, hne]
  refine ⟨?_, ?_, ?_, ?_, ?_, ?_⟩
  · intro h100
    simp only [getBudgetStatus, hdiv, jsMulConst, jsGe]
    rw [if_pos (by simpa using h100)]
  · intro h80 h100
    simp only [getBudgetStatus, hdiv, jsMulConst, jsGe]
    rw [if_neg (by simpa using not_le.mpr h100), if_pos (by simpa using h80)]
  · intro h80
    simp only [getBudgetStatus, hdiv, jsMulConst, jsGe]
    rw [if_neg (by simpa using not_le.mpr (h80.trans (by norm_num : (80 : ℚ) < 100))),
      if_neg (by simpa using not_le.mpr h80)]
  · norm_num [getBudgetStatus, jsDivNum, jsMulConst, jsGe]
  · norm_num [getBudgetStatus, jsDivNum, jsMulConst, jsGe]
  · norm_num [getBudgetStatus, jsDivNum, jsMulConst, jsGe]

/-- Witness for C7 at the three boundary inputs of the spec. -/
theorem C7_budget_status_witness :
    (getBudgetStatus 79 100).status = "good" ∧
    (getBudgetStatus 80 100).status = "warning" ∧
    (getBudgetStatus 100 100).status = "over" :=
  (C7_budget_status 79 100 (by norm_num) (by norm_num)).2.2.2

/-- C6. `getGoalStatus` returns `completed` whenever the ECMAScript value
of `current / target * 100` compares `≥ 100` — before any date logic, for
every `targetDate` and `today` (for `target > 0` that condition is
exactly the rational `100 ≤ current / target * 100`); otherwise, with
`daysLeft = ⌈(targetDate - today) / 1 day⌉`, it returns `overdue` when
`daysLeft < 0`, `urgent` when `0 ≤ daysLeft ≤ 30`, `active` when
`daysLeft > 30`, and `active` when there is no target date. -/
theorem C6_goal_status (current target : ℚ) (targetDate : Option Int) (today : Int) :
    (0 < target →
      jsGe (jsMulConst (jsDivNum current target) 100) 100 =
        decide (100 ≤ current / target * 100)) ∧
    (jsGe (jsMulConst (jsDivNum current target) 100) 100 = true →
      (getGoalStatus current target targetDate today).status = "completed") ∧
    (jsGe (jsMulConst (jsDivNum current target) 100) 100 = false →
      (targetDate = none → (getGoalStatus current target targetDate today).status = "active") ∧
      (∀ deadline, targetDate = some deadline →
        (⌈((deadline - today : Int) : ℚ) / (1000 * 3600 * 24)⌉ < 0 →
          (getGoalStatus current target targetDate today).status = "overdue") ∧
        (0 ≤ ⌈((deadline - today : Int) : ℚ) / (1000 * 3600 * 24)⌉ →
          ⌈((deadline - today : Int) : ℚ) / (1000 * 3600 * 24)⌉ ≤ 30 →
          (getGoalStatus current target targetDate today).status = "urgent") ∧
        (30 < ⌈((deadline - today : Int) : ℚ) / (1000 * 3600 * 24)⌉ →
          (getGoalStatus current target targetDate today).status = "active"))) := by
  refine ⟨?_, ?_, ?_⟩
  · intro hpos
    have hne : target ≠ 0 := ne_of_gt hpos
    simp [jsDivNum, hne, jsMulConst, jsGe]
  · intro hge
    simp only [getGoalStatus]
    rw [if_pos hge]
  · intro hge
    constructor
    · intro hnone
      subst hnone
      simp only [getGoalStatus]
      rw [if_neg (by simp [hge])]
    · intro deadline hdl
      subst hdl
      have hceil := ceilQ_eq_ceil (((deadline - today : Int) : ℚ) / (1000 * 3600 * 24))
      refine ⟨?_, ?_, ?_⟩
      · intro hneg
        simp only [getGoalStatus]
        rw [if_neg (by simp [hge]), if_pos (by rw [hceil]; exact hneg)]
      · intro h0 h30
        simp only [getGoalStatus]
        rw [if_neg (by simp [hge]), if_neg (by rw [hceil]; exact not_lt.mpr h0),
          if_pos (by rw [hceil]; exact h30)]
      · intro h30
        simp only [getGoalStatus]
        rw [if_neg (by simp [hge]), if_neg (by rw [hceil]; omega),
          if_neg (by rw [hceil]; exact not_le.mpr h30)]

/-- Witness for C6 at the concrete dates of the spec scenario
(`today = 0`, 30 days = 2592000000 ms, 31 days = 2678400000 ms). -/
theorem C6_goal_status_witness :
    (getGoalStatus 50 100 (some 2592000000) 0).status = "urgent" ∧
    (getGoalStatus 50 100 (some (-2678400000)) 0).status = "overdue" ∧
    (getGoalStatus 100 100 (some 2592000000) 0).status = "completed" := by
  have hfalse : jsGe (jsMulConst (jsDivNum 50 100) 100) 100 = false := by
    norm_num [jsDivNum, jsMulConst, jsGe]
  have h30 : ((2592000000 - 0 : Int) : ℚ) / (1000 * 3600 * 24) = ((30 : Int) : ℚ) := by
    norm_num
  have h31 : (((-2678400000 : Int) - 0 : Int) : ℚ) / (1000 * 3600 * 24) = ((-31 : Int) : ℚ) := by
    norm_num
  refine ⟨?_, ?_, ?_⟩
  · refine ((((C6_goal_status 50 100 (some 2592000000) 0).2.2 hfalse).2 2592000000 rfl)).2.1 ?_ ?_
    · rw [h30, Int.ceil_intCast]
      all_goals decide
    · rw [h30, Int.ceil_intCast]
      all_goals decide
  · refine ((((C6_goal_status 50 100 (some (-2678400000)) 0).2.2 hfalse).2 (-2678400000) rfl)).1 ?_
    rw [h31, Int.ceil_intCast]
    all_goals decide
  · refine (C6_goal_status 100 100 (some 2592000000) 0).2.1 ?_
    norm_num [jsDivNum, jsMulConst, jsGe]

/-- C4 counterexample.  Neither evaluator guards a zero denominator: the
division is performed, producing `+∞` (or `NaN` when the numerator is also
zero); `getBudgetStatus(100, 0)` is `over` (the claim predicted
`percentage = 0` and `good`), and `getGoalStatus(5, 0)` is `completed`
(the claim predicted progress treated as `0%`, hence `active`). -/
theorem C4_counterexample :
    jsDivNum 100 0 = .posInf ∧ jsDivNum 0 0 = .nan ∧
    (getBudgetStatus 100 0).status = "over" ∧ "over" ≠ "good" ∧
    (getGoalStatus 5 0 none 0).status = "completed" ∧ "completed" ≠ "active" := by
  refine ⟨?_, ?_, ?_, by decide, ?_, by decide⟩
  · norm_num [jsDivNum]
  · norm_num [jsDivNum]
  · norm_num [getBudgetStatus, jsDivNum, jsMulConst, jsGe]
  · norm_num [getGoalStatus, jsDivNum, jsMulConst, jsGe]

/-- C4 (amended).  The progress evaluators have no zero guards and always
divide, with the ECMAScript special values flowing through the
comparisons: with `limit = 0`, `getBudgetStatus` yields `over` for
`spent > 0` (percentage `+∞`) and `good` for `spent = 0` (percentage
`NaN`, every comparison false); with `target = 0`, `getGoalStatus` yields
`completed` for `current > 0` and for `current = 0` falls through to the
same date logic as a 0% progress. -/
theorem C4_no_zero_guard (spent current : ℚ) (targetDate : Option Int) (today : Int) :
    jsDivNum 0 0 = .nan ∧
    (0 < spent → jsDivNum spent 0 = .posInf) ∧
    (0 < spent → (getBudgetStatus spent 0).status = "over") ∧
    (getBudgetStatus 0 0).status = "good" ∧
    (0 < current → (getGoalStatus current 0 targetDate today).status = "completed") ∧
    getGoalStatus 0 0 targetDate today = getGoalStatus 0 1 targetDate today := by
  refine ⟨by norm_num [jsDivNum], ?_, ?_, ?_, ?_, ?_⟩
  · intro hpos
    simp [jsDivNum, hpos]
  · intro hpos
    simp [getBudgetStatus, jsDivNum, hpos, jsMulConst, jsGe]
  · norm_num [getBudgetStatus, jsDivNum, jsMulConst, jsGe]
  · intro hpos
    simp [getGoalStatus, jsDivNum, ne_of_gt hpos, hpos, jsMulConst, jsGe]
  · have h1 : jsGe (jsMulConst (jsDivNum 0 0) 100) 100 = false := by
      norm_num [jsDivNum, jsMulConst, jsGe]
    have h2 : jsGe (jsMulConst (jsDivNum 0 1) 100) 100 = false := by
      norm_num [jsDivNum, jsMulConst, jsGe]
    simp only [getGoalStatus]
    rw [if_neg (by simp [h1]), if_neg (by simp [h2])]

/-- Witness for the amended C4 at `spent = 100`, `current = 5`. -/
theorem C4_no_zero_guard_witness :
    jsDivNum 0 0 = JsNumber.nan ∧
    (getBudgetStatus 100 0).status = "over" ∧
    (getBudgetStatus 0 0).status = "good" ∧
    (getGoalStatus 5 0 none 0).status = "completed" := by
  have h := C4_no_zero_guard 100 5 none 0
  exact ⟨h.1, h.2.2.1 (by norm_num), h.2.2.2.1, h.2.2.2.2.1 (by norm_num)⟩

/-! ## Claim C9: ownership -/

/-- The store with only the caller's transactions retained (categories,
budgets and goals untouched). -/
def restrictToUser (s : Store) (u : String) : Store :=
  { s with transactions := s.transactions.filter (fun t => t.userId == u) }

theorem rangeTxs_restrict (s : Store) (u : String) (a b : Int) :
    rangeTxs (restrictToUser s u) u a b = rangeTxs s u a b := by
  show (s.transactions.filter (fun t => t.userId == u)).filter (txInRange u a b) =
    s.transactions.filter (txInRange u a b)
  rw [List.filter_filter]
  refine List.filter_congr ?_
  intro t _
  cases hu : t.userId == u <;> simp [txInRange, hu]

theorem mem_txBase (s : Store) (u : String) (t : Transaction)
    (h : t ∈ sortTxByDateDesc (s.transactions.filter (fun t => t.userId == u))) :
    t.userId = u := by
  unfold sortTxByDateDesc at h
  have := List.mem_filter.mp (List.mem_mergeSort.mp h)
  simpa using this.2

/-- Concrete store for the C9 counterexample: a category owned by `alice`
referenced by a transaction owned by `bob`. -/
def aliceCat : Category := ⟨"cat1", "alice", "Secret Fund", "lock", "#000000", .expense, 0⟩

def bobTx : Transaction := ⟨"t1", "bob", some "cat1", "x", 10, .expense, none, 5, 0⟩

def crossStore : Store :=
  { categories := [aliceCat], transactions := [bobTx], budgets := [], savingsGoals := [] }

/-- C9 counterexample.  The per-row category join of
`getTransactionsByDateRange` fetches the category document by id with no
ownership check: `bob`'s query returns `alice`'s category record embedded
in the row, so an operation does expose another user's record (the routes
never validate that a transaction's `categoryId` belongs to the caller,
so such a reference is reachable through the public API). -/
theorem C9_counterexample :
    getTransactionsByDateRange crossStore "bob" 0 10 = [⟨bobTx, some aliceCat⟩] ∧
    aliceCat.userId = "alice" ∧ ¬ ("alice" = "bob") := by
  refine ⟨?_, rfl, by decide⟩
  simp [getTransactionsByDateRange, crossStore, rangeTxs, txInRange, bobTx,
    sortTxByDateDesc, joinCategory, jsOrNull, jsStrFalsy, aliceCat]

/-- C9 (amended).  Top-level ownership is enforced everywhere: every list
query returns only records whose `userId` is the caller's; every update
or delete of a category, transaction, budget or savings goal whose stored
`userId` differs from the caller's fails (`none` / `false`) and leaves the
store unchanged; and the two aggregations depend only on the caller's
transactions.  (The exception the counterexample exhibits — the embedded
category of the join resolved by id without an ownership check — is the
one channel through which another user's record can still be exposed.) -/
theorem C9_ownership (s : Store) (u : String) :
    (∀ c ∈ getCategories s u, c.userId = u) ∧
    (∀ lim : Option Nat, ∀ r ∈ getTransactions s u lim, r.tx.userId = u) ∧
    (∀ a b : Int, ∀ r ∈ getTransactionsByDateRange s u a b, r.tx.userId = u) ∧
    (∀ r ∈ getBudgets s u, r.budget.userId = u) ∧
    (∀ g ∈ getSavingsGoals s u, g.userId = u) ∧
    (∀ i : String, ∀ p : CategoryPatch, ∀ c : Category,
      s.categories.find? (fun d => d.id == i) = some c → ¬ c.userId = u →
      updateCategory s i u p = (none, s) ∧ deleteCategory s i u = (false, s)) ∧
    (∀ i : String, ∀ p : TransactionPatch, ∀ t : Transaction,
      s.transactions.find? (fun d => d.id == i) = some t → ¬ t.userId = u →
      updateTransaction s i u p = (none, s) ∧ deleteTransaction s i u = (false, s)) ∧
    (∀ i : String, ∀ p : BudgetPatch, ∀ bg : Budget,
      s.budgets.find? (fun d => d.id == i) = some bg → ¬ bg.userId = u →
      updateBudget s i u p = (none, s) ∧ deleteBudget s i u = (false, s)) ∧
    (∀ i : String, ∀ p : SavingsGoalPatch, ∀ g : SavingsGoal,
      s.savingsGoals.find? (fun d => d.id == i) = some g → ¬ g.userId = u →
      updateSavingsGoal s i u p = (none, s) ∧ deleteSavingsGoal s i u = (false, s)) ∧
    (∀ year month : Nat,
      getMonthlyBalance (restrictToUser s u) u year month = getMonthlyBalance s u year month) ∧
    (∀ a b : Int,
      getCategoryTotals (restrictToUser s u) u a b = getCategoryTotals s u a b) := by
  refine ⟨?_, ?_, ?_, ?_, ?_, ?_, ?_, ?_, ?_, ?_, ?_⟩
  · intro c hc
    unfold getCategories sortCategoriesByCreatedDesc at hc
    have := List.mem_filter.mp (List.mem_mergeSort.mp hc)
    simpa using this.2
  · intro lim r hr
    simp only [getTransactions] at hr
    rcases List.mem_map.mp hr with ⟨t, ht, hft⟩
    have htx : r.tx = t := by rw [← hft]
    rw [htx]
    rcases lim with _ | n
    · exact mem_txBase s u t ht
    · have ht3 : t ∈ (if (n == 0) = true
          then sortTxByDateDesc (s.transactions.filter (fun t => t.userId == u))
          else (sortTxByDateDesc (s.transactions.filter (fun t => t.userId == u))).take n) := ht
      by_cases hn : (n == 0) = true
      · rw [if_pos hn] at ht3
        exact mem_txBase s u t ht3
      · rw [if_neg hn] at ht3
        exact mem_txBase s u t (List.mem_of_mem_take ht3)
  · intro a b r hr
    simp only [getTransactionsByDateRange] at hr
    rcases List.mem_map.mp hr with ⟨t, ht, hft⟩
    have htx : r.tx = t := by rw [← hft]
    rw [htx]
    unfold sortTxByDateDesc at ht
    have h2 := (List.mem_filter.mp (List.mem_mergeSort.mp ht)).2
    simp only [txInRange, Bool.and_eq_true] at h2
    simpa using h2.1.1
  · intro r hr
    simp only [getBudgets] at hr
    rcases List.mem_map.mp hr with ⟨bg, hbg, hfb⟩
    have hb : r.budget = bg := by rw [← hfb]
    rw [hb]
    unfold sortBudgetsByCreatedDesc at hbg
    have := List.mem_filter.mp (List.mem_mergeSort.mp hbg)
    simpa using this.2
  · intro g hg
    unfold getSavingsGoals sortGoalsByCreatedDesc at hg
    have := List.mem_filter.mp (List.mem_mergeSort.mp hg)
    simpa using this.2
  · intro i p c hfind hne
    constructor
    · simp only [updateCategory, hfind]
      rw [if_pos hne]
    · simp only [deleteCategory, hfind]
      rw [if_pos hne]
  · intro i p t hfind hne
    constructor
    · simp only [updateTransaction, hfind]
      rw [if_pos hne]
    · simp only [deleteTransaction, hfind]
      rw [if_pos hne]
  · intro i p bg hfind hne
    constructor
    · simp only [updateBudget, hfind]
      rw [if_pos hne]
    · simp only [deleteBudget, hfind]
      rw [if_pos hne]
  · intro i p g hfind hne
    constructor
    · simp only [updateSavingsGoal, hfind]
      rw [if_pos hne]
    · simp only [deleteSavingsGoal, hfind]
      rw [if_pos hne]
  · intro year month
    simp only [getMonthlyBalance]
    rw [rangeTxs_restrict]
  · intro a b
    simp only [getCategoryTotals, categoryTotalsMap]
    rw [rangeTxs_restrict]
    rw [show (restrictToUser s u).categories = s.categories from rfl]

/-- Witness for the amended C9 on `crossStore`: `bob` cannot update or
delete `alice`'s category, and restricting the store to `bob`'s
transactions leaves `bob`'s aggregations unchanged. -/
theorem C9_ownership_witness :
    (updateCategory crossStore "cat1" "bob" {} = (none, crossStore) ∧
      deleteCategory crossStore "cat1" "bob" = (false, crossStore)) ∧
    getMonthlyBalance (restrictToUser crossStore "bob") "bob" 2024 2 =
      getMonthlyBalance crossStore "bob" 2024 2 := by
  have h := C9_ownership crossStore "bob"
  exact ⟨h.2.2.2.2.2.1 "cat1" {} aliceCat rfl (by decide), h.2.2.2.2.2.2.2.2.2.1 2024 2⟩
